import Mathlib

/-!
# Verification of the phira-mp wire codec and session/room coordinator

A shallow embedding of the `phira-mp` repository (a multiplayer coordination
server for a rhythm game), covering:

* the binary codec of `phira-mp-common/src/bin.rs` and the wire command
  types of `phira-mp-common/src/command.rs`;
* the per-room state machine of `phira-mp-server/src/room.rs`;
* the command dispatch of `phira-mp-server/src/session.rs`.

Conventions of the embedding:

* Wire bytes are `Nat`s; every byte produced by a writer is `< 256`, and
  readers reduce incoming bytes mod 256 where a fixed-width value is
  assembled (real wire bytes are `< 256`, so the reduction is the identity
  on every input the Rust code can see).
* Rust fixed-width integers are modelled by their bit patterns, as `Fin`
  of the corresponding power of two (`i32` as `Fin (2^32)` in two's
  complement, `f32` by its IEEE bit pattern as `Fin (2^32)`, `f16` as
  `Fin (2^16)`): the codec only moves raw little-endian bytes, so bit
  patterns are exactly what it preserves.
* Rust `String`s are modelled as lists of Unicode scalar values
  (`RString`); their UTF-8 byte image is computed by `utf8Encode`.
* Fallible Rust functions returning `anyhow::Result` are modelled with
  `Option` (`none` = a decode error; the error messages are irrelevant to
  the claims except where noted, in which case a dedicated error type is
  used).
-/

namespace PhiraMP

/-- Bit patterns of Rust `u8`/`i8` values (`i8` in two's complement). -/
abbrev B8 := Fin 256

/-- Bit patterns of Rust `u16` values, and of `half::f16` values. -/
abbrev B16 := Fin 65536

/-- Bit patterns of Rust `u32`/`i32`/`f32` values. -/
abbrev B32 := Fin 4294967296

/-- Bit patterns of Rust `u64`/`i64` values. -/
abbrev B64 := Fin 18446744073709551616

/-- The reader monad shape of `BinaryReader` (`bin.rs`): a reader consumes a
prefix of the input bytes and either fails (`none`, an `anyhow` error in the
source) or returns a value and the remaining bytes. -/
def RdM (α : Type) : Type := List Nat → Option (α × List Nat)

/-- A reader that consumes nothing and returns `a` (the `Ok(..)` wrapping in
the source). -/
def rPure {α : Type} (a : α) : RdM α := fun l => some (a, l)

/-- Sequencing of two reads; the `?` operator of the source. -/
def rBind {α β : Type} (m : RdM α) (f : α → RdM β) : RdM β :=
  fun l => Option.bind (m l) fun p => f p.1 p.2

/-- Mapping over a read result. -/
def rMap {α β : Type} (f : α → β) (m : RdM α) : RdM β :=
  rBind m fun a => rPure (f a)

/-- A failing reader: `bail!(..)` in the source. -/
def rFail {α : Type} : RdM α := fun _ => none

/-- `BinaryReader::byte` (`bin.rs` 25-31): return the next byte, or error at
end of input. -/
def rByte : RdM Nat := fun l =>
  match l with
  | [] => none
  | b :: t => some (b, t)

/-- `BinaryReader::take` (`bin.rs` 33-38): return the next `n` bytes, or
error if fewer remain. -/
def rTake (n : Nat) : RdM (List Nat) := fun l =>
  if n ≤ l.length then some (l.take n, l.drop n) else none

/-- Little-endian read of `k` bytes as a natural number; the common core of
`LE::read_u16/u32/u64/i32/i64/f32` (`bin.rs`).  Each byte is reduced mod 256
(the identity on real wire bytes), so the result is always `< 2^(8k)`. -/
def rLE : Nat → RdM Nat
  | 0 => rPure 0
  | k + 1 => rBind rByte fun b => rBind (rLE k) fun v => rPure (b % 256 + 256 * v)

/-- Little-endian byte image of a `k`-byte integer; the common core of
`to_le_bytes` used by all fixed-width `write_binary` impls (`bin.rs`). -/
def wLE : Nat → Nat → List Nat
  | 0, _ => []
  | k + 1, v => v % 256 :: wLE k (v / 256)

/-- `BinaryReader::uleb` (`bin.rs` 44-55).  The source accumulates into a
`u64` with `result |= ((byte & 0x7f) as u64) << shift` and never checks
`shift`: we model release-mode Rust semantics, where the shift amount is
masked mod 64 and the result wraps mod 2^64.  (A debug build would panic
once `shift` reaches 64, i.e. from the 10th continuation byte on; no claim
below depends on inputs that long.)  There is no overflow rejection: the
loop only stops at a byte without the continuation bit, or fails at end of
input. -/
def rUlebAux : List Nat → Nat → Nat → Option (Nat × List Nat)
  | [], _, _ => none
  | b :: t, shift, acc =>
    let acc' := (acc ||| ((b &&& 127) <<< (shift % 64))) % 18446744073709551616
    if b &&& 128 = 0 then some (acc', t) else rUlebAux t (shift + 7) acc'

/-- `BinaryReader::uleb`, entry point (`result = 0`, `shift = 0`). -/
def rUleb : RdM Nat := fun l => rUlebAux l 0 0

/-- The loop of `BinaryWriter::uleb`, with fuel for structural termination;
the quotient shrinks every step, so any fuel at or above the value gives
the same bytes. -/
def wUlebAux : Nat → Nat → List Nat
  | 0, v => [v % 128]
  | fuel + 1, v =>
    if v / 128 = 0 then [v % 128]
    else (v % 128 + 128) :: wUlebAux fuel (v / 128)

/-- `BinaryWriter::uleb` (`bin.rs` 83-95): emit 7-bit groups, low first,
setting bit 7 on every group but the last. -/
def wUleb (v : Nat) : List Nat := wUlebAux v v

/-- The frame-length decoder of `Stream::new`'s receive loop
(`phira-mp-common/src/lib.rs` 108-124): a ULEB128 length accumulated into a
`u32`, rejecting (`bail!("invalid length")`) when a continuation byte pushes
the shift past 32 bits, and rejecting lengths above 2 MiB.  Modelled on a
byte list instead of the socket. -/
def recvLenAux : List Nat → Nat → Nat → Option (Nat × List Nat)
  | [], _, _ => none
  | b :: t, pos, len =>
    let len' := (len ||| ((b &&& 127) <<< (pos % 32))) % 4294967296
    let pos' := pos + 7
    if b &&& 128 = 0 then
      if len' > 2 * 1024 * 1024 then none else some (len', t)
    else if pos' > 32 then none
    else recvLenAux t pos' len'

/-- The frame-length decoder, entry point (`len = 0`, `pos = 0`). -/
def recvLen : RdM Nat := fun l => recvLenAux l 0 0

/-! ## Strings and UTF-8

Rust `String`s are UTF-8 by construction; the codec writes their raw bytes
and decodes with `String::from_utf8_lossy` (`bin.rs` 206-217), which
replaces each maximal invalid subpart with U+FFFD.  We model a `String` as
its list of Unicode scalar values. -/

/-- A Unicode scalar value: the values a Rust `char` can hold. -/
def ScalarValue (n : Nat) : Prop := n < 55296 ∨ (57343 < n ∧ n ≤ 1114111)

/-- A Rust `char`. -/
abbrev UChar := { n : Nat // ScalarValue n }

/-- A Rust `String`, as its list of scalar values. -/
abbrev RString := List UChar

/-- U+FFFD REPLACEMENT CHARACTER, inserted by lossy decoding. -/
def repl : UChar := ⟨65533, Or.inr (by omega)⟩

/-- The UTF-8 bytes of one scalar value (as in Rust's
`char::encode_utf8`). -/
def utf8EncodeScalar (v : Nat) : List Nat :=
  if v < 128 then [v]
  else if v < 2048 then [192 + v / 64, 128 + v % 64]
  else if v < 65536 then [224 + v / 4096, 128 + v / 64 % 64, 128 + v % 64]
  else [240 + v / 262144, 128 + v / 4096 % 64, 128 + v / 64 % 64, 128 + v % 64]

/-- The UTF-8 byte image of a `String` (what `str::as_bytes` yields and
`write_binary` copies to the wire). -/
def utf8Encode (s : RString) : List Nat := (s.map fun c => utf8EncodeScalar c.val).flatten

/-- `String::len` in Rust: the UTF-8 byte length. -/
def byteLen (s : RString) : Nat := (utf8Encode s).length

/-- One step of `String::from_utf8_lossy` (Unicode "substitution of maximal
subparts", as Rust's `core::str` validation implements it): given the lead
byte `b0` and the bytes after it, produce the decoded character — U+FFFD
for an invalid or truncated sequence — and how many bytes after the lead
belong to this character (the valid prefix of an invalid sequence is
skipped with a single replacement; an invalid lead alone is skipped). -/
def utf8Step (b0 : Nat) (rest : List Nat) : UChar × Nat :=
  -- `rest.getD i 256` is the i-th continuation byte; 256 when the input is
  -- truncated, which fails every range test below exactly like a missing
  -- byte does in the source.
  if h1 : b0 < 128 then (⟨b0, Or.inl (by omega)⟩, 0)
  else if b0 < 194 then
    -- stray continuation byte or overlong two-byte lead (0x80..0xC1)
    (repl, 0)
  else if h2 : b0 < 224 then
    -- two-byte sequence, lead 0xC2..0xDF
    if hc : 128 ≤ rest.getD 0 256 ∧ rest.getD 0 256 < 192 then
      (⟨(b0 - 192) * 64 + (rest.getD 0 256 - 128), Or.inl (by omega)⟩, 1)
    else (repl, 0)
  else if h3 : b0 < 240 then
    -- three-byte sequence, lead 0xE0..0xEF; the first continuation range
    -- depends on the lead (0xE0: 0xA0..0xBF, 0xED: 0x80..0x9F)
    if hc1 : (b0 = 224 → 160 ≤ rest.getD 0 256) ∧ (b0 = 237 → rest.getD 0 256 ≤ 159) ∧
        128 ≤ rest.getD 0 256 ∧ rest.getD 0 256 < 192 then
      if hc2 : 128 ≤ rest.getD 1 256 ∧ rest.getD 1 256 < 192 then
        (⟨(b0 - 224) * 4096 + (rest.getD 0 256 - 128) * 64 + (rest.getD 1 256 - 128), by
          unfold ScalarValue
          omega⟩, 2)
      else (repl, 1)
    else (repl, 0)
  else if h4 : b0 < 245 then
    -- four-byte sequence, lead 0xF0..0xF4; the first continuation range
    -- depends on the lead (0xF0: 0x90..0xBF, 0xF4: 0x80..0x8F)
    if hc1 : (b0 = 240 → 144 ≤ rest.getD 0 256) ∧ (b0 = 244 → rest.getD 0 256 ≤ 143) ∧
        128 ≤ rest.getD 0 256 ∧ rest.getD 0 256 < 192 then
      if hc2 : 128 ≤ rest.getD 1 256 ∧ rest.getD 1 256 < 192 then
        if hc3 : 128 ≤ rest.getD 2 256 ∧ rest.getD 2 256 < 192 then
          (⟨(b0 - 240) * 262144 + (rest.getD 0 256 - 128) * 4096 +
              (rest.getD 1 256 - 128) * 64 + (rest.getD 2 256 - 128), by
            unfold ScalarValue
            omega⟩, 3)
        else (repl, 2)
      else (repl, 1)
    else (repl, 0)
  else
    -- invalid lead byte 0xF5..0xFF
    (repl, 0)

/-- The recursion of `String::from_utf8_lossy`, with fuel for structural
termination; one input byte is consumed per step, so any fuel at or above
the input length gives the same result. -/
def utf8DecodeLossyAux : Nat → List Nat → RString
  | _, [] => []
  | 0, _ :: _ => []
  | fuel + 1, b0 :: rest =>
    let s := utf8Step b0 rest
    s.1 :: utf8DecodeLossyAux fuel (rest.drop s.2)

/-- `String::from_utf8_lossy`: decode UTF-8, replacing each maximal invalid
subpart by U+FFFD. -/
def utf8DecodeLossy (l : List Nat) : RString := utf8DecodeLossyAux l.length l

/-- `impl BinaryData for String`, read side (`bin.rs` 206-210): ULEB length,
that many raw bytes, lossy UTF-8 decode. -/
def rString : RdM RString :=
  rBind rUleb fun len => rBind (rTake len) fun bytes => rPure (utf8DecodeLossy bytes)

/-- `impl BinaryData for String`, write side (`bin.rs` 212-216): ULEB byte
length, then the raw UTF-8 bytes. -/
def wString (s : RString) : List Nat := wUleb (byteLen s) ++ utf8Encode s

/-- `Varchar::<N>::read_binary` (`command.rs` 64-71): ULEB length, reject if
it exceeds `N`, then lossy-decode that many raw bytes.  Note the length
check applies to the raw byte count, before lossy decoding. -/
def rVarchar (N : Nat) : RdM RString :=
  rBind rUleb fun len =>
    if len > N then rFail
    else rBind (rTake len) fun bytes => rPure (utf8DecodeLossy bytes)

/-- `Varchar::write_binary` (`command.rs` 73-75): writes the inner string. -/
def wVarchar (s : RString) : List Nat := wString s

/-- The character class allowed in a `RoomId` (`command.rs` 87):
`-`, `_`, or ASCII alphanumeric. -/
def roomCharOk (c : UChar) : Prop :=
  c.val = 45 ∨ c.val = 95 ∨ (48 ≤ c.val ∧ c.val ≤ 57) ∨
    (65 ≤ c.val ∧ c.val ≤ 90) ∨ (97 ≤ c.val ∧ c.val ≤ 122)

instance (c : UChar) : Decidable (roomCharOk c) := by
  unfold roomCharOk; infer_instance

/-- `RoomId::validate` (`command.rs` 81-92): non-empty and all characters in
the allowed class. -/
def roomIdOk (s : RString) : Prop := s ≠ [] ∧ ∀ c ∈ s, roomCharOk c

instance (s : RString) : Decidable (roomIdOk s) := by
  unfold roomIdOk; infer_instance

/-- `RoomId::read_binary` (`command.rs` 115-119): a `Varchar<20>` that must
pass `validate`. -/
def rRoomId : RdM RString :=
  rBind (rVarchar 20) fun s => if roomIdOk s then rPure s else rFail

/-- `RoomId::write_binary` (`command.rs` 120-122): writes the inner string. -/
def wRoomId (s : RString) : List Nat := wString s

/-! ## Primitive codecs (`bin.rs`) -/

/-- `impl BinaryData for bool`, read side (`bin.rs` 185-188): one byte,
`true` iff it equals 1. -/
def rBool : RdM Bool := rBind rByte fun b => rPure (b == 1)

/-- `impl BinaryData for bool`, write side (`bin.rs` 190-192):
`*self as u8`. -/
def wBool (b : Bool) : List Nat := [if b then 1 else 0]

/-- `u8`/`i8` read (one raw byte, reduced mod 256 — the identity on real
wire bytes). -/
def rB8 : RdM B8 := rBind rByte fun b => rPure ⟨b % 256, by omega⟩

/-- `u8`/`i8` write. -/
def wB8 (v : B8) : List Nat := [v.val]

/-- `u16` read (`LE::read_u16`, also `f16` bit patterns). -/
def rB16 : RdM B16 := rBind (rLE 2) fun n => rPure ⟨n % 65536, by omega⟩

/-- `u16` write (`to_le_bytes`). -/
def wB16 (v : B16) : List Nat := wLE 2 v.val

/-- `u32`/`i32`/`f32` read (`LE::read_u32` and friends; bit patterns). -/
def rB32 : RdM B32 := rBind (rLE 4) fun n => rPure ⟨n % 4294967296, by omega⟩

/-- `u32`/`i32`/`f32` write (`to_le_bytes`). -/
def wB32 (v : B32) : List Nat := wLE 4 v.val

/-- `u64`/`i64` read (`LE::read_u64`/`read_i64`; bit patterns). -/
def rB64 : RdM B64 := rBind (rLE 8) fun n => rPure ⟨n % 18446744073709551616, by omega⟩

/-- `u64`/`i64` write (`to_le_bytes`). -/
def wB64 (v : B64) : List Nat := wLE 8 v.val

/-- `impl BinaryData for (A, B)` read side (`bin.rs` 219-222). -/
def rPair {α β : Type} (rA : RdM α) (rB : RdM β) : RdM (α × β) :=
  rBind rA fun a => rBind rB fun b => rPure (a, b)

/-- `impl BinaryData for (A, B)` write side (`bin.rs` 224-228). -/
def wPair {α β : Type} (wA : α → List Nat) (wB : β → List Nat) (p : α × β) : List Nat :=
  wA p.1 ++ wB p.2

/-- `impl BinaryData for Option<T>` read side (`bin.rs` 232-238). -/
def rOption {α : Type} (rA : RdM α) : RdM (Option α) :=
  rBind rBool fun b => if b then rMap some rA else rPure none

/-- `impl BinaryData for Option<T>` write side (`bin.rs` 240-251). -/
def wOption {α : Type} (wA : α → List Nat) : Option α → List Nat
  | some a => wBool true ++ wA a
  | none => wBool false

/-- `impl BinaryData for Result<A, B>` read side (`bin.rs` 254-261): a bool
tag (`true` = Ok) then the corresponding payload. -/
def rResult {α ε : Type} (rA : RdM α) (rE : RdM ε) : RdM (Except ε α) :=
  rBind rBool fun b => if b then rMap Except.ok rA else rMap Except.error rE

/-- `impl BinaryData for Result<A, B>` write side (`bin.rs` 263-275). -/
def wResult {α ε : Type} (wA : α → List Nat) (wE : ε → List Nat) : Except ε α → List Nat
  | Except.ok a => wBool true ++ wA a
  | Except.error e => wBool false ++ wE e

/-- Read `n` consecutive values (the body of `BinaryReader::array`,
`bin.rs` 21-23). -/
def rCount {α : Type} (rA : RdM α) : Nat → RdM (List α)
  | 0 => rPure []
  | n + 1 => rBind rA fun a => rBind (rCount rA n) fun t => rPure (a :: t)

/-- `BinaryReader::array` / `impl BinaryData for Vec<T>` read side: ULEB
count, then that many elements. -/
def rList {α : Type} (rA : RdM α) : RdM (List α) :=
  rBind rUleb fun n => rCount rA n

/-- `BinaryWriter::array` (`bin.rs` 65-71): ULEB count, then the elements.
(The `v.len() as u64` cast is the identity for every Rust vector.) -/
def wList {α : Type} (wA : α → List Nat) (l : List α) : List Nat :=
  wUleb l.length ++ (l.map wA).flatten

/-- `impl BinaryData for HashMap<K, V>` read side (`bin.rs` 289-291): ULEB
count then that many key-value pairs.  We model the map by its iteration
sequence of entries (encode order is unspecified in the source). -/
def rHashMap {κ ν : Type} (rK : RdM κ) (rV : RdM ν) : RdM (List (κ × ν)) :=
  rBind rUleb fun n => rCount (rPair rK rV) n

/-- `impl BinaryData for HashMap<K, V>` write side (`bin.rs` 293-300). -/
def wHashMap {κ ν : Type} (wK : κ → List Nat) (wV : ν → List Nat)
    (m : List (κ × ν)) : List Nat :=
  wUleb m.length ++ (m.map fun p => wK p.1 ++ wV p.2).flatten

/-- A `uuid::Uuid`, as its two 64-bit halves. -/
structure Uuid where
  hi : B64
  lo : B64
deriving DecidableEq

/-- `impl BinaryData for Uuid` read side (`bin.rs` 303-308): low half then
high half, each a little-endian `u64` (`Uuid::from_u64_pair(high, low)`). -/
def rUuid : RdM Uuid :=
  rBind rB64 fun low => rBind rB64 fun high => rPure ⟨high, low⟩

/-- `impl BinaryData for Uuid` write side (`bin.rs` 310-315). -/
def wUuid (u : Uuid) : List Nat := wB64 u.lo ++ wB64 u.hi

/-- A `chrono::DateTime<Utc>` instant: a whole number of milliseconds since
the epoch plus `0 ≤ subnanos < 10^6` sub-millisecond nanoseconds (chrono
stores nanosecond precision; values outside that `subnanos` range
correspond to no chrono value and appear only under explicit hypotheses). -/
structure Timestamp where
  millis : Int
  subnanos : Nat
deriving DecidableEq

/-- Modelled from the spec: "decoders fail on out-of-range values" — the
exact range is `chrono`'s `DateTime` range, which lives outside this
repository (`Utc.timestamp_millis_opt(..).single()` in `bin.rs` 320-322);
any symmetric bound within the `i64` range yields the same claims.  We use
±2^62 ms. -/
def tsInRange (m : Int) : Prop := -(2 ^ 62) ≤ m ∧ m ≤ 2 ^ 62

instance (m : Int) : Decidable (tsInRange m) := by
  unfold tsInRange; infer_instance

/-- `impl BinaryData for DateTime<Utc>` read side (`bin.rs` 319-323): a
little-endian `i64` of epoch milliseconds; out-of-range values are
rejected.  The decoded instant has no sub-millisecond part. -/
def rTimestamp : RdM Timestamp :=
  rBind rB64 fun p =>
    let m : Int := if p.val < 9223372036854775808 then (p.val : Int)
      else (p.val : Int) - 18446744073709551616
    if tsInRange m then rPure ⟨m, 0⟩ else rFail

/-- `impl BinaryData for DateTime<Utc>` write side (`bin.rs` 325-327):
`timestamp_millis()` as a little-endian `i64` (two's complement); the
sub-millisecond nanoseconds are discarded. -/
def wTimestamp (t : Timestamp) : List Nat :=
  wLE 8 (t.millis % 18446744073709551616).toNat

/-! ## Wire command types (`command.rs`) -/

/-- `CompactPos` (`command.rs` 9-28): two `f16` bit patterns. -/
structure CompactPos where
  x : B16
  y : B16
deriving DecidableEq

/-- `CompactPos::read_binary`: `x` bits then `y` bits. -/
def rCompactPos : RdM CompactPos :=
  rBind rB16 fun x => rBind rB16 fun y => rPure ⟨x, y⟩

/-- `CompactPos::write_binary`. -/
def wCompactPos (p : CompactPos) : List Nat := wB16 p.x ++ wB16 p.y

/-- `TouchFrame` (`command.rs` 131-135). -/
structure TouchFrame where
  time : B32
  points : List (B8 × CompactPos)
deriving DecidableEq

/-- `TouchFrame` derived read: fields in declaration order. -/
def rTouchFrame : RdM TouchFrame :=
  rBind rB32 fun time => rBind (rList (rPair rB8 rCompactPos)) fun points =>
    rPure ⟨time, points⟩

/-- `TouchFrame` derived write. -/
def wTouchFrame (f : TouchFrame) : List Nat :=
  wB32 f.time ++ wList (wPair wB8 wCompactPos) f.points

/-- `Judgement` (`command.rs` 137-146). -/
inductive Judgement
  | perfect
  | good
  | bad
  | miss
  | holdPerfect
  | holdGood
deriving DecidableEq

/-- `Judgement` derived read: one discriminant byte, 0-indexed in
declaration order; unknown discriminants fail. -/
def rJudgement : RdM Judgement :=
  rBind rByte fun d =>
    if d = 0 then rPure .perfect
    else if d = 1 then rPure .good
    else if d = 2 then rPure .bad
    else if d = 3 then rPure .miss
    else if d = 4 then rPure .holdPerfect
    else if d = 5 then rPure .holdGood
    else rFail

/-- `Judgement` derived write. -/
def wJudgement : Judgement → List Nat
  | .perfect => [0]
  | .good => [1]
  | .bad => [2]
  | .miss => [3]
  | .holdPerfect => [4]
  | .holdGood => [5]

/-- `JudgeEvent` (`command.rs` 148-154). -/
structure JudgeEvent where
  time : B32
  lineId : B32
  noteId : B32
  judgement : Judgement
deriving DecidableEq

/-- `JudgeEvent` derived read. -/
def rJudgeEvent : RdM JudgeEvent :=
  rBind rB32 fun time => rBind rB32 fun lineId => rBind rB32 fun noteId =>
    rBind rJudgement fun judgement => rPure ⟨time, lineId, noteId, judgement⟩

/-- `JudgeEvent` derived write. -/
def wJudgeEvent (e : JudgeEvent) : List Nat :=
  wB32 e.time ++ wB32 e.lineId ++ wB32 e.noteId ++ wJudgement e.judgement

/-- `ClientCommand` (`command.rs` 156-178).  `Varchar<N>` and `RoomId`
payloads are `RString`s; their bounds/charset are invariants of the Rust
wrapper types, stated as hypotheses where needed.  `Arc<Vec<T>>` is a
`List T` (the `Arc` is transparent to the codec). -/
inductive ClientCommand
  | ping
  | authenticate (token : RString)
  | chat (message : RString)
  | touches (frames : List TouchFrame)
  | judges (judges : List JudgeEvent)
  | createRoom (id : RString)
  | joinRoom (id : RString) (monitor : Bool)
  | leaveRoom
  | lockRoom (lock : Bool)
  | cycleRoom (cycle : Bool)
  | selectChart (id : B32)
  | requestStart
  | ready
  | cancelReady
  | played (id : B32)
  | abort
deriving DecidableEq

/-- `ClientCommand` derived read: discriminant byte, then the variant's
fields in order. -/
def rClientCommand : RdM ClientCommand :=
  rBind rByte fun d =>
    if d = 0 then rPure .ping
    else if d = 1 then rMap .authenticate (rVarchar 32)
    else if d = 2 then rMap .chat (rVarchar 200)
    else if d = 3 then rMap .touches (rList rTouchFrame)
    else if d = 4 then rMap .judges (rList rJudgeEvent)
    else if d = 5 then rMap .createRoom rRoomId
    else if d = 6 then
      rBind rRoomId fun id => rBind rBool fun monitor => rPure (.joinRoom id monitor)
    else if d = 7 then rPure .leaveRoom
    else if d = 8 then rMap .lockRoom rBool
    else if d = 9 then rMap .cycleRoom rBool
    else if d = 10 then rMap .selectChart rB32
    else if d = 11 then rPure .requestStart
    else if d = 12 then rPure .ready
    else if d = 13 then rPure .cancelReady
    else if d = 14 then rMap .played rB32
    else if d = 15 then rPure .abort
    else rFail

/-- `ClientCommand` derived write. -/
def wClientCommand : ClientCommand → List Nat
  | .ping => [0]
  | .authenticate token => 1 :: wVarchar token
  | .chat message => 2 :: wVarchar message
  | .touches frames => 3 :: wList wTouchFrame frames
  | .judges judges => 4 :: wList wJudgeEvent judges
  | .createRoom id => 5 :: wRoomId id
  | .joinRoom id monitor => 6 :: (wRoomId id ++ wBool monitor)
  | .leaveRoom => [7]
  | .lockRoom lock => 8 :: wBool lock
  | .cycleRoom cycle => 9 :: wBool cycle
  | .selectChart id => 10 :: wB32 id
  | .requestStart => [11]
  | .ready => [12]
  | .cancelReady => [13]
  | .played id => 14 :: wB32 id
  | .abort => [15]

/-- `Message` (`command.rs` 180-234): the chat/event payloads broadcast to a
room. -/
inductive Message
  | chat (user : B32) (content : RString)
  | createRoom (user : B32)
  | joinRoom (user : B32) (name : RString)
  | leaveRoom (user : B32) (name : RString)
  | newHost (user : B32)
  | selectChart (user : B32) (name : RString) (id : B32)
  | gameStart (user : B32)
  | ready (user : B32)
  | cancelReady (user : B32)
  | cancelGame (user : B32)
  | startPlaying
  | played (user : B32) (score : B32) (accuracy : B32) (fullCombo : Bool)
  | gameEnd
  | abort (user : B32)
  | lockRoom (lock : Bool)
  | cycleRoom (cycle : Bool)
deriving DecidableEq

/-- `Message` derived read. -/
def rMessage : RdM Message :=
  rBind rByte fun d =>
    if d = 0 then rBind rB32 fun u => rBind rString fun c => rPure (.chat u c)
    else if d = 1 then rMap .createRoom rB32
    else if d = 2 then rBind rB32 fun u => rBind rString fun n => rPure (.joinRoom u n)
    else if d = 3 then rBind rB32 fun u => rBind rString fun n => rPure (.leaveRoom u n)
    else if d = 4 then rMap .newHost rB32
    else if d = 5 then
      rBind rB32 fun u => rBind rString fun n => rBind rB32 fun i =>
        rPure (.selectChart u n i)
    else if d = 6 then rMap .gameStart rB32
    else if d = 7 then rMap .ready rB32
    else if d = 8 then rMap .cancelReady rB32
    else if d = 9 then rMap .cancelGame rB32
    else if d = 10 then rPure .startPlaying
    else if d = 11 then
      rBind rB32 fun u => rBind rB32 fun s => rBind rB32 fun a => rBind rBool fun f =>
        rPure (.played u s a f)
    else if d = 12 then rPure .gameEnd
    else if d = 13 then rMap .abort rB32
    else if d = 14 then rMap .lockRoom rBool
    else if d = 15 then rMap .cycleRoom rBool
    else rFail

/-- `Message` derived write. -/
def wMessage : Message → List Nat
  | .chat u c => 0 :: (wB32 u ++ wString c)
  | .createRoom u => 1 :: wB32 u
  | .joinRoom u n => 2 :: (wB32 u ++ wString n)
  | .leaveRoom u n => 3 :: (wB32 u ++ wString n)
  | .newHost u => 4 :: wB32 u
  | .selectChart u n i => 5 :: (wB32 u ++ wString n ++ wB32 i)
  | .gameStart u => 6 :: wB32 u
  | .ready u => 7 :: wB32 u
  | .cancelReady u => 8 :: wB32 u
  | .cancelGame u => 9 :: wB32 u
  | .startPlaying => [10]
  | .played u s a f => 11 :: (wB32 u ++ wB32 s ++ wB32 a ++ wBool f)
  | .gameEnd => [12]
  | .abort u => 13 :: wB32 u
  | .lockRoom l => 14 :: wBool l
  | .cycleRoom c => 15 :: wBool c

/-- The public `RoomState` (`command.rs` 236-241). -/
inductive RoomState
  | selectChart (chart : Option B32)
  | waitingForReady
  | playing
deriving DecidableEq

/-- `RoomState` derived read. -/
def rRoomState : RdM RoomState :=
  rBind rByte fun d =>
    if d = 0 then rMap .selectChart (rOption rB32)
    else if d = 1 then rPure .waitingForReady
    else if d = 2 then rPure .playing
    else rFail

/-- `RoomState` derived write. -/
def wRoomState : RoomState → List Nat
  | .selectChart chart => 0 :: wOption wB32 chart
  | .waitingForReady => [1]
  | .playing => [2]

/-- `UserInfo` (`command.rs` 249-254). -/
structure UserInfo where
  id : B32
  name : RString
  monitor : Bool
deriving DecidableEq

/-- `UserInfo` derived read. -/
def rUserInfo : RdM UserInfo :=
  rBind rB32 fun id => rBind rString fun name => rBind rBool fun monitor =>
    rPure ⟨id, name, monitor⟩

/-- `UserInfo` derived write. -/
def wUserInfo (u : UserInfo) : List Nat := wB32 u.id ++ wString u.name ++ wBool u.monitor

/-- `ClientRoomState` (`command.rs` 256-266).  The `users` HashMap is
modelled by its entry sequence. -/
structure ClientRoomState where
  id : RString
  state : RoomState
  live : Bool
  locked : Bool
  cycle : Bool
  isHost : Bool
  isReady : Bool
  users : List (B32 × UserInfo)
deriving DecidableEq

/-- `ClientRoomState` derived read. -/
def rClientRoomState : RdM ClientRoomState :=
  rBind rRoomId fun id => rBind rRoomState fun state => rBind rBool fun live =>
    rBind rBool fun locked => rBind rBool fun cycle => rBind rBool fun isHost =>
      rBind rBool fun isReady => rBind (rHashMap rB32 rUserInfo) fun users =>
        rPure ⟨id, state, live, locked, cycle, isHost, isReady, users⟩

/-- `ClientRoomState` derived write. -/
def wClientRoomState (s : ClientRoomState) : List Nat :=
  wRoomId s.id ++ wRoomState s.state ++ wBool s.live ++ wBool s.locked ++
    wBool s.cycle ++ wBool s.isHost ++ wBool s.isReady ++
    wHashMap wB32 wUserInfo s.users

/-- `JoinRoomResponse` (`command.rs` 268-273). -/
structure JoinRoomResponse where
  state : RoomState
  users : List UserInfo
  live : Bool
deriving DecidableEq

/-- `JoinRoomResponse` derived read. -/
def rJoinRoomResponse : RdM JoinRoomResponse :=
  rBind rRoomState fun state => rBind (rList rUserInfo) fun users =>
    rBind rBool fun live => rPure ⟨state, users, live⟩

/-- `JoinRoomResponse` derived write. -/
def wJoinRoomResponse (j : JoinRoomResponse) : List Nat :=
  wRoomState j.state ++ wList wUserInfo j.users ++ wBool j.live

instance {ε α : Type} [DecidableEq ε] [DecidableEq α] : DecidableEq (Except ε α)
  | .ok a, .ok b =>
    if h : a = b then isTrue (by rw [h]) else isFalse (by simp [h])
  | .ok _, .error _ => isFalse (by simp)
  | .error _, .ok _ => isFalse (by simp)
  | .error a, .error b =>
    if h : a = b then isTrue (by rw [h]) else isFalse (by simp [h])

/-- `ServerCommand` (`command.rs` 275-308).  `SResult<T>` =
`Result<T, String>` is `Except RString T`. -/
inductive ServerCommand
  | pong
  | authenticate (res : Except RString (UserInfo × Option ClientRoomState))
  | chat (res : Except RString Unit)
  | touches (player : B32) (frames : List TouchFrame)
  | judges (player : B32) (judges : List JudgeEvent)
  | message (msg : Message)
  | changeState (state : RoomState)
  | changeHost (isHost : Bool)
  | createRoom (res : Except RString Unit)
  | joinRoom (res : Except RString JoinRoomResponse)
  | onJoinRoom (user : UserInfo)
  | leaveRoom (res : Except RString Unit)
  | lockRoom (res : Except RString Unit)
  | cycleRoom (res : Except RString Unit)
  | selectChart (res : Except RString Unit)
  | requestStart (res : Except RString Unit)
  | ready (res : Except RString Unit)
  | cancelReady (res : Except RString Unit)
  | played (res : Except RString Unit)
  | abort (res : Except RString Unit)
deriving DecidableEq

/-- Read side of the `()` payload (`bin.rs` 98-105): reads nothing. -/
def rUnit : RdM Unit := rPure ()

/-- Write side of the `()` payload: writes nothing. -/
def wUnit (_ : Unit) : List Nat := []

/-- `ServerCommand` derived read. -/
def rServerCommand : RdM ServerCommand :=
  rBind rByte fun d =>
    if d = 0 then rPure .pong
    else if d = 1 then
      rMap .authenticate (rResult (rPair rUserInfo (rOption rClientRoomState)) rString)
    else if d = 2 then rMap .chat (rResult rUnit rString)
    else if d = 3 then
      rBind rB32 fun p => rBind (rList rTouchFrame) fun f => rPure (.touches p f)
    else if d = 4 then
      rBind rB32 fun p => rBind (rList rJudgeEvent) fun j => rPure (.judges p j)
    else if d = 5 then rMap .message rMessage
    else if d = 6 then rMap .changeState rRoomState
    else if d = 7 then rMap .changeHost rBool
    else if d = 8 then rMap .createRoom (rResult rUnit rString)
    else if d = 9 then rMap .joinRoom (rResult rJoinRoomResponse rString)
    else if d = 10 then rMap .onJoinRoom rUserInfo
    else if d = 11 then rMap .leaveRoom (rResult rUnit rString)
    else if d = 12 then rMap .lockRoom (rResult rUnit rString)
    else if d = 13 then rMap .cycleRoom (rResult rUnit rString)
    else if d = 14 then rMap .selectChart (rResult rUnit rString)
    else if d = 15 then rMap .requestStart (rResult rUnit rString)
    else if d = 16 then rMap .ready (rResult rUnit rString)
    else if d = 17 then rMap .cancelReady (rResult rUnit rString)
    else if d = 18 then rMap .played (rResult rUnit rString)
    else if d = 19 then rMap .abort (rResult rUnit rString)
    else rFail

/-- `ServerCommand` derived write. -/
def wServerCommand : ServerCommand → List Nat
  | .pong => [0]
  | .authenticate res =>
    1 :: wResult (wPair wUserInfo (wOption wClientRoomState)) wString res
  | .chat res => 2 :: wResult wUnit wString res
  | .touches p f => 3 :: (wB32 p ++ wList wTouchFrame f)
  | .judges p j => 4 :: (wB32 p ++ wList wJudgeEvent j)
  | .message m => 5 :: wMessage m
  | .changeState s => 6 :: wRoomState s
  | .changeHost b => 7 :: wBool b
  | .createRoom res => 8 :: wResult wUnit wString res
  | .joinRoom res => 9 :: wResult wJoinRoomResponse wString res
  | .onJoinRoom u => 10 :: wUserInfo u
  | .leaveRoom res => 11 :: wResult wUnit wString res
  | .lockRoom res => 12 :: wResult wUnit wString res
  | .cycleRoom res => 13 :: wResult wUnit wString res
  | .selectChart res => 14 :: wResult wUnit wString res
  | .requestStart res => 15 :: wResult wUnit wString res
  | .ready res => 16 :: wResult wUnit wString res
  | .cancelReady res => 17 :: wResult wUnit wString res
  | .played res => 18 :: wResult wUnit wString res
  | .abort res => 19 :: wResult wUnit wString res

/-- Conversion of a Lean `Char` (a valid scalar value by construction) to a
modelled Rust `char`; lets string literals denote `RString`s. -/
def ofChar (c : Char) : UChar :=
  ⟨c.val.toNat, by
    rcases c.valid with h | ⟨h1, h2⟩
    · exact Or.inl h
    · exact Or.inr ⟨h1, by omega⟩⟩

/-- A Lean string literal as a modelled Rust `String`. -/
def ofStr (s : String) : RString := s.toList.map ofChar

/-! ## The server-side room model (`phira-mp-server`)

`room.rs` and `session.rs` operate on a `Room` behind per-field `RwLock`s;
each dispatched command is one serialized read-modify-write of the room (the
spec's §5: "state transitions within one Room are serialized"), so each
operation is modelled as a pure function from the room (plus the oracles for
the HTTP collaborator and the RNG) to the updated room, a response and the
list of emitted sends. -/

/-- The attributes of a server-side `User` (`session.rs` 31-44) that the
room logic reads: id, display name and monitor flag.  (`game_time`,
`session` and `dangle_mark` play no part in the claims modelled below.) -/
structure SUser where
  id : B32
  name : RString
  monitor : Bool
deriving DecidableEq

/-- `Chart` (`server.rs` 10-14). -/
structure Chart where
  id : B32
  name : RString
deriving DecidableEq

/-- `Record` (`server.rs` 16-30); floats by their bit patterns. -/
structure Record where
  id : B32
  player : B32
  score : B32
  perfect : B32
  good : B32
  bad : B32
  miss : B32
  maxCombo : B32
  accuracy : B32
  fullCombo : Bool
  std : B32
  stdScore : B32
deriving DecidableEq

/-- `InternalRoomState` (`room.rs` 18-29).  The `results` HashMap is
modelled by its key set: no claim below depends on the stored `Record`
values, only on which players are present. -/
inductive IState
  | selectChart
  | waitForReady (started : Finset B32)
  | playing (results : Finset B32) (aborted : Finset B32)
deriving DecidableEq

/-- `Room` (`room.rs` 41-53).  Weak references are modelled by their live
targets: `users`/`monitors` hold the members whose `Weak` upgrades, in
insertion order; `host` holds the host's id when the host `Weak` upgrades
(`ptr_eq` on users is id equality, since the server registry holds at most
one live `User` per id).  The room's `id : RoomId` never influences the
claims and is omitted. -/
structure SRoom where
  users : List SUser
  monitors : List SUser
  host : Option B32
  state : IState
  chart : Option Chart
  live : Bool
  locked : Bool
  cycle : Bool
deriving DecidableEq

/-- `InternalRoomState::to_client` (`room.rs` 31-39). -/
def toClient (st : IState) (chart : Option B32) : RoomState :=
  match st with
  | .selectChart => .selectChart chart
  | .waitForReady _ => .waitingForReady
  | .playing _ _ => .playing

/-- `Room::client_room_state` (`room.rs` 84-89). -/
def clientRoomState (r : SRoom) : RoomState := toClient r.state (r.chart.map (·.id))

/-- One emitted send: a broadcast to the room (`Room::broadcast`, which
fans out to every current participant and monitor) or a private
`User::try_send`. -/
inductive Effect
  | broadcast (cmd : ServerCommand)
  | toUser (uid : B32) (cmd : ServerCommand)
deriving DecidableEq

/-- `Room::on_state_change` (`room.rs` 111-114): broadcast the current
public state. -/
def onStateChange (r : SRoom) : Effect :=
  Effect.broadcast (.changeState (clientRoomState r))

/-- `Room::check_all_ready` (`room.rs` 233-292).  In `WaitForReady`, if
every participant and every monitor is in `started`, emit `StartPlaying`
and move to `Playing` with empty sets (`reset_game_time` touches only the
unmodelled `game_time` cells).  In `Playing`, if every participant is in
`results ∪ aborted`, emit `GameEnd`, move to `SelectChart` and, if `cycle`
is set, rotate the host to the next participant in insertion order
(`position + 1` wrapping, defaulting to index 0 when the old host is not
found).  The source's `users.into_iter().nth(index).unwrap()` panics when
the room is cycling with no participants left; that path is modelled as no
host change. -/
def checkAllReady (r : SRoom) : SRoom × List Effect :=
  match r.state with
  | .waitForReady started =>
    if (r.users ++ r.monitors).all fun u => decide (u.id ∈ started) then
      let r' := { r with state := .playing ∅ ∅ }
      (r', [Effect.broadcast (.message .startPlaying), onStateChange r'])
    else (r, [])
  | .playing results aborted =>
    if r.users.all fun u => decide (u.id ∈ results ∨ u.id ∈ aborted) then
      let r1 := { r with state := .selectChart }
      let gameEnd := Effect.broadcast (.message .gameEnd)
      if r.cycle then
        let idx := ((r1.users.findIdx? fun u => decide (r1.host = some u.id)).map
          fun i => (i + 1) % r1.users.length).getD 0
        match r1.users[idx]? with
        | some newHost =>
          let r2 := { r1 with host := some newHost.id }
          (r2, [gameEnd, Effect.broadcast (.message (.newHost newHost.id))] ++
            (match r1.host with
             | some old => [Effect.toUser old (.changeHost false)]
             | none => []) ++
            [Effect.toUser newHost.id (.changeHost true), onStateChange r2])
        | none => (r1, [gameEnd, onStateChange r1])
      else (r1, [gameEnd, onStateChange r1])
    else (r, [])
  | .selectChart => (r, [])

/-- The membership-list update at the start of `on_user_leave` (`room.rs`
199-207): the leaver is removed from the monitor or participant list
according to their monitor flag (dead weak references are dropped by the
same `retain`; the model's lists hold only live members). -/
def removeLeaver (r : SRoom) (u : SUser) : SRoom :=
  if u.monitor then { r with monitors := r.monitors.filter fun w => w.id != u.id }
  else { r with users := r.users.filter fun w => w.id != u.id }

/-- `Room::on_user_leave` (`room.rs` 193-224), with the RNG of
`users.choose(&mut thread_rng())` modelled by the oracle index `choice`
(reduced mod the number of candidates).  Returns whether the room should be
dropped, the updated room, and the emitted sends. -/
def onUserLeave (r : SRoom) (u : SUser) (choice : Nat) : Bool × SRoom × List Effect :=
  let leaveEff := Effect.broadcast (.message (.leaveRoom u.id u.name))
  let r1 := removeLeaver r u
  if r1.host = some u.id then
    match r1.users with
    | [] => (true, r1, [leaveEff])
    | w :: ws =>
      let cands := w :: ws
      let chosen := cands.get ⟨choice % cands.length, Nat.mod_lt _ (Nat.succ_pos ws.length)⟩
      let r2 := { r1 with host := some chosen.id }
      let out := checkAllReady r2
      (false, out.1,
        [leaveEff, Effect.broadcast (.message (.newHost chosen.id)),
         Effect.toUser chosen.id (.changeHost true)] ++ out.2)
  else
    let out := checkAllReady r1
    (false, out.1, leaveEff :: out.2)

/-- The cause of a per-command error; in the source each is rendered as a
string into the matching `ServerCommand::X(Err(..))` (`err_to_str`,
`session.rs` 340-342), localized where `tl!` is used. -/
inductive PErr
  | noRoom            -- "no room"
  | invalidState      -- "invalid state"
  | onlyHost          -- "only host can do this"
  | alreadyReady      -- "already ready"
  | notReady          -- "not ready"
  | aborted           -- "aborted"
  | alreadyUploaded   -- "already uploaded"
  | invalidRecord     -- "invalid record"
  | noChartSelected   -- tl!("start-no-chart-selected")
deriving DecidableEq

/-- The response of `process` (`session.rs` 338-713) for the room-state
commands: `Some(ServerCommand::X(err_to_str(res)))` in the source, with the
error cause kept as a `PErr`. -/
inductive PResp
  | selectChart (res : Except PErr Unit)
  | requestStart (res : Except PErr Unit)
  | ready (res : Except PErr Unit)
  | cancelReady (res : Except PErr Unit)
  | played (res : Except PErr Unit)
  | abort (res : Except PErr Unit)
deriving DecidableEq

/-- `process` on `ClientCommand::Ready` (`session.rs` 614-630), for a user
`u` whose current room is `r`.  Note: only when the state matches
`WaitForReady` is anything checked or changed; in any other state the block
is skipped and the command succeeds with no effect. -/
def processReady (u : SUser) (r : SRoom) : PResp × SRoom × List Effect :=
  match r.state with
  | .waitForReady started =>
    if u.id ∈ started then (.ready (.error .alreadyReady), r, [])
    else
      let r1 := { r with state := .waitForReady (insert u.id started) }
      let out := checkAllReady r1
      (.ready (.ok ()), out.1, Effect.broadcast (.message (.ready u.id)) :: out.2)
  | _ => (.ready (.ok ()), r, [])

/-- `process` on `ClientCommand::CancelReady` (`session.rs` 631-652): in
`WaitForReady`, remove the user from `started` (error if absent); if the
canceler is the host, the whole room returns to `SelectChart` with a
`CancelGame` message, otherwise a `CancelReady` message is broadcast.  In
any other state the command succeeds with no effect. -/
def processCancelReady (u : SUser) (r : SRoom) : PResp × SRoom × List Effect :=
  match r.state with
  | .waitForReady started =>
    if u.id ∉ started then (.cancelReady (.error .notReady), r, [])
    else if r.host = some u.id then
      let r1 := { r with state := .selectChart }
      (.cancelReady (.ok ()), r1,
        [Effect.broadcast (.message (.cancelGame u.id)), onStateChange r1])
    else
      let r1 := { r with state := .waitForReady (started.erase u.id) }
      (.cancelReady (.ok ()), r1, [Effect.broadcast (.message (.cancelReady u.id))])
  | _ => (.cancelReady (.ok ()), r, [])

/-- `process` on `ClientCommand::Played` (`session.rs` 653-691), with the
record fetched from the score collaborator given as the oracle `rec` (a
fetch failure would return the error with no further action).  The record
is validated against the submitter, then `Message::Played` is broadcast —
before the room state is examined.  Only then, if the state is `Playing`,
the sets are checked and updated and completion is re-checked; in any other
state the command succeeds after the broadcast. -/
def processPlayed (u : SUser) (rec : Record) (r : SRoom) : PResp × SRoom × List Effect :=
  if rec.player ≠ u.id then (.played (.error .invalidRecord), r, [])
  else
    let playedEff :=
      Effect.broadcast (.message (.played u.id rec.score rec.accuracy rec.fullCombo))
    match r.state with
    | .playing results aborted =>
      if u.id ∈ aborted then (.played (.error .aborted), r, [playedEff])
      else if u.id ∈ results then
        -- the HashMap insert also replaces the stored record; the key set,
        -- which is what we model, is unchanged
        (.played (.error .alreadyUploaded), r, [playedEff])
      else
        let r1 := { r with state := .playing (insert u.id results) aborted }
        let out := checkAllReady r1
        (.played (.ok ()), out.1, playedEff :: out.2)
    | _ => (.played (.ok ()), r, [playedEff])

/-- `process` on `ClientCommand::Abort` (`session.rs` 692-711): in
`Playing`, reject a user already in `results` or already in `aborted`, else
insert into `aborted`, broadcast `Abort` and re-check completion.  In any
other state the command succeeds with no effect. -/
def processAbort (u : SUser) (r : SRoom) : PResp × SRoom × List Effect :=
  match r.state with
  | .playing results aborted =>
    if u.id ∈ results then (.abort (.error .alreadyUploaded), r, [])
    else if u.id ∈ aborted then (.abort (.error .aborted), r, [])
    else
      let r1 := { r with state := .playing results (insert u.id aborted) }
      let out := checkAllReady r1
      (.abort (.ok ()), out.1, Effect.broadcast (.message (.abort u.id)) :: out.2)
  | _ => (.abort (.ok ()), r, [])

/-- `process` on `ClientCommand::SelectChart` (`session.rs` 559-592), with
the chart fetched from the collaborator given as the oracle `c`.  The state
precondition (`get_room!(room, InternalRoomState::SelectChart)`) is checked
before anything else; then host privilege; then the chart is stored and
announced. -/
def processSelectChart (u : SUser) (c : Chart) (r : SRoom) : PResp × SRoom × List Effect :=
  match r.state with
  | .selectChart =>
    if r.host ≠ some u.id then (.selectChart (.error .onlyHost), r, [])
    else
      let r1 := { r with chart := some c }
      (.selectChart (.ok ()), r1,
        [Effect.broadcast (.message (.selectChart u.id c.name c.id)), onStateChange r1])
  | _ => (.selectChart (.error .invalidState), r, [])

/-- `process` on `ClientCommand::RequestStart` (`session.rs` 594-613): state
precondition first, then host privilege, then a selected chart is required;
on success `GameStart` is broadcast, the state becomes
`WaitForReady{started = {host}}`, the new state is announced and readiness
is immediately re-checked. -/
def processRequestStart (u : SUser) (r : SRoom) : PResp × SRoom × List Effect :=
  match r.state with
  | .selectChart =>
    if r.host ≠ some u.id then (.requestStart (.error .onlyHost), r, [])
    else if r.chart = none then (.requestStart (.error .noChartSelected), r, [])
    else
      let r1 := { r with state := .waitForReady {u.id} }
      let out := checkAllReady r1
      (.requestStart (.ok ()), out.1,
        [Effect.broadcast (.message (.gameStart u.id)), onStateChange r1] ++ out.2)
  | _ => (.requestStart (.error .invalidState), r, [])

/-- `Room::new` (`room.rs` 56-70), as built by `process` on `CreateRoom`
(`session.rs` 425-451): the creator is the host and sole participant. -/
def newRoom (host : SUser) : SRoom :=
  { users := [host], monitors := [], host := some host.id, state := .selectChart,
    chart := none, live := false, locked := false, cycle := false }

/-- `process` on `ClientCommand::JoinRoom` (`session.rs` 452-504) as a room
transformer: reject when locked, when not in `SelectChart`, or (for
participants) when 8 players are present (`Room::add_user`, `room.rs`
116-132); a monitor is appended to the monitor list and turns the room
live.  The joining user's monitor flag is stored on the user.  (The
server-wide monitor allow-list and "already in room" checks concern state
outside the room and are premises of the reachability relation.) -/
def joinRoomStep (u : SUser) (monitor : Bool) (r : SRoom) : Option SRoom :=
  if r.locked then none
  else if r.state ≠ .selectChart then none
  else if monitor then
    some { r with monitors := r.monitors ++ [{ u with monitor := true }], live := true }
  else if r.users.length < 8 then
    some { r with users := r.users ++ [{ u with monitor := false }] }
  else none

/-- `process` on `ClientCommand::LockRoom` (`session.rs` 525-541):
host-only; sets the flag and broadcasts. -/
def processLockRoom (u : SUser) (lock : Bool) (r : SRoom) : SRoom :=
  if r.host = some u.id then { r with locked := lock } else r

/-- `process` on `ClientCommand::CycleRoom` (`session.rs` 542-558):
host-only; sets the flag and broadcasts. -/
def processCycleRoom (u : SUser) (cycle : Bool) (r : SRoom) : SRoom :=
  if r.host = some u.id then { r with cycle := cycle } else r

/-- The rooms reachable through the modelled operations, from creation
(`CreateRoom`) through joins, host commands, readiness, play and leaves.
Each step that dispatches on behalf of a user requires that user to be a
current member (`get_room!`: the user's `room` points here, and a user in a
room is listed by it). -/
inductive RoomReach : SRoom → Prop
  | create (host : SUser) : RoomReach (newRoom host)
  | join (u : SUser) (monitor : Bool) (r r' : SRoom) (h : RoomReach r)
      (hfresh : ∀ w ∈ r.users ++ r.monitors, w.id ≠ u.id)
      (hj : joinRoomStep u monitor r = some r') : RoomReach r'
  | lock (u : SUser) (lock : Bool) (r : SRoom) (h : RoomReach r)
      (hm : u ∈ r.users ∨ u ∈ r.monitors) : RoomReach (processLockRoom u lock r)
  | cycle (u : SUser) (cycle : Bool) (r : SRoom) (h : RoomReach r)
      (hm : u ∈ r.users ∨ u ∈ r.monitors) : RoomReach (processCycleRoom u cycle r)
  | selectChart (u : SUser) (c : Chart) (r : SRoom) (h : RoomReach r)
      (hm : u ∈ r.users ∨ u ∈ r.monitors) : RoomReach (processSelectChart u c r).2.1
  | requestStart (u : SUser) (r : SRoom) (h : RoomReach r)
      (hm : u ∈ r.users ∨ u ∈ r.monitors) : RoomReach (processRequestStart u r).2.1
  | ready (u : SUser) (r : SRoom) (h : RoomReach r)
      (hm : u ∈ r.users ∨ u ∈ r.monitors) : RoomReach (processReady u r).2.1
  | cancelReady (u : SUser) (r : SRoom) (h : RoomReach r)
      (hm : u ∈ r.users ∨ u ∈ r.monitors) : RoomReach (processCancelReady u r).2.1
  | played (u : SUser) (rec : Record) (r : SRoom) (h : RoomReach r)
      (hm : u ∈ r.users ∨ u ∈ r.monitors) : RoomReach (processPlayed u rec r).2.1
  | abort (u : SUser) (r : SRoom) (h : RoomReach r)
      (hm : u ∈ r.users ∨ u ∈ r.monitors) : RoomReach (processAbort u r).2.1
  | leave (u : SUser) (choice : Nat) (r : SRoom) (h : RoomReach r)
      (hm : u ∈ r.users ∨ u ∈ r.monitors)
      (hkeep : (onUserLeave r u choice).1 = false) :
      RoomReach (onUserLeave r u choice).2.1

/-- The body of the grace-timer task spawned by `User::dangle`
(`session.rs` 108-121), at expiry of the 10-second sleep.
`markerStillHeld` is `Arc::strong_count(&dangle_mark) > 1`: whether the
user's `dangle_mark` still holds the clone (a reattaching session clears it
via `set_session`).  `registry` is the key set of the server's `users` map;
the result's second component is the room after the leave (`none` when the
room was dropped from the room registry).  Note the user-registry removal
happens inside the `if let Some(room)` branch only. -/
def dangleTimerExpire (markerStillHeld : Bool) (u : SUser) (room : Option SRoom)
    (registry : Finset B32) (choice : Nat) :
    Finset B32 × Option SRoom × List Effect :=
  if markerStillHeld then
    match room with
    | some r =>
      let registry' := registry.erase u.id
      let out := onUserLeave r u choice
      (registry', if out.1 then none else some out.2.1, out.2.2)
    | none => (registry, none, [])
  else (registry, room, [])

/-! ## The session handler (`Session::new`'s closure, `session.rs` 151-280) -/

/-- The dispatcher flags of one session's handler closure. -/
structure HandlerState where
  waiting : Bool    -- waiting_for_authenticate
  panicked : Bool
deriving DecidableEq

/-- The outcome of the authentication block (token length check aside):
either the identity fetch/registry installation fails with an error string,
or it yields the user's info and current room state. -/
inductive AuthOutcome
  | fail (err : RString)
  | ok (info : UserInfo) (roomState : Option ClientRoomState)

/-- What one handler invocation did. -/
structure HandlerOut where
  state : HandlerState
  sends : List ServerCommand
  lostCon : Bool    -- reported the session on `lost_con_tx`
  dispatched : Bool -- forwarded the command to `process`
deriving DecidableEq

/-- One invocation of the session handler closure (`session.rs` 159-279)
on a decoded command.  (`*last_recv = now` is timing state outside the
model.)  Order of the guards is as in the source: the `panicked` flag is
consulted first, then `Ping`, then the authentication phase. -/
def handle (st : HandlerState) (auth : AuthOutcome) (cmd : ClientCommand) : HandlerOut :=
  if st.panicked then ⟨st, [], false, false⟩
  else
    match cmd with
    | .ping => ⟨st, [.pong], false, false⟩
    | _ =>
      if st.waiting then
        match cmd with
        | .authenticate token =>
          if byteLen token ≠ 32 then
            ⟨{ st with panicked := true },
              [.authenticate (.error (ofStr (r"invalid token")))], true, false⟩
          else
            match auth with
            | .fail err =>
              ⟨{ st with panicked := true }, [.authenticate (.error err)], true, false⟩
            | .ok info rs =>
              ⟨{ st with waiting := false }, [.authenticate (.ok (info, rs))], false, false⟩
        | _ => ⟨st, [], false, false⟩   -- "packet before authentication, ignoring"
      else ⟨st, [], false, true⟩

/-- The ids of a room's live non-monitor participants. -/
def participantIds (r : SRoom) : List B32 := r.users.map SUser.id

/-- Every id in a `WaitForReady` room's `started` set belongs to a current
participant or monitor. -/
def StartedWF (r : SRoom) : Prop :=
  ∀ s, r.state = IState.waitForReady s →
    ∀ x ∈ s, (∃ w ∈ r.users, w.id = x) ∨ ∃ w ∈ r.monitors, w.id = x

/-! ## Representability

The Lean model types are unbounded where Rust's are not: every Rust
`String`/`Vec` has fewer than 2^64 bytes/elements (so the `as u64` casts on
written lengths are the identity), every `Varchar<N>` constructed through
its checked constructor is within its bound, and every `RoomId` is
validated.  The `WF*` predicates characterise the model values that denote
Rust values; round-trip statements quantify over them. -/

/-- A Rust-representable string: byte length below 2^64. -/
def WFString (s : RString) : Prop := byteLen s < 18446744073709551616

/-- A Rust-representable `Varchar<N>`: within its bound (implies
representable, for the bounds in use). -/
def WFVarchar (N : Nat) (s : RString) : Prop := byteLen s ≤ N

/-- A Rust `RoomId`: a validated `Varchar<20>`. -/
def WFRoomId (s : RString) : Prop := roomIdOk s ∧ byteLen s ≤ 20

/-- A Rust-representable `TouchFrame`. -/
def WFTouchFrame (f : TouchFrame) : Prop := f.points.length < 18446744073709551616

/-- A Rust-representable `UserInfo`. -/
def WFUserInfo (u : UserInfo) : Prop := WFString u.name

/-- A Rust-representable `Message`. -/
def WFMessage : Message → Prop
  | .chat _ c => WFString c
  | .joinRoom _ n => WFString n
  | .leaveRoom _ n => WFString n
  | .selectChart _ n _ => WFString n
  | _ => True

/-- A Rust-representable `ClientRoomState`. -/
def WFClientRoomState (c : ClientRoomState) : Prop :=
  WFRoomId c.id ∧ c.users.length < 18446744073709551616 ∧
    ∀ p ∈ c.users, WFUserInfo p.2

/-- A Rust-representable `JoinRoomResponse`. -/
def WFJoinRoomResponse (j : JoinRoomResponse) : Prop :=
  j.users.length < 18446744073709551616 ∧ ∀ u ∈ j.users, WFUserInfo u

/-- A Rust-representable `ClientCommand`: every `Varchar` within its bound
(as its checked constructor guarantees), every `RoomId` validated, every
sequence of representable length. -/
def WFClientCommand : ClientCommand → Prop
  | .authenticate t => WFVarchar 32 t
  | .chat m => WFVarchar 200 m
  | .touches fs => fs.length < 18446744073709551616 ∧ ∀ f ∈ fs, WFTouchFrame f
  | .judges js => js.length < 18446744073709551616
  | .createRoom id => WFRoomId id
  | .joinRoom id _ => WFRoomId id
  | _ => True

/-- A Rust-representable `ServerCommand`. -/
def WFServerCommand : ServerCommand → Prop
  | .authenticate (.ok (u, rs)) => WFUserInfo u ∧ ∀ c ∈ rs, WFClientRoomState c
  | .authenticate (.error e) => WFString e
  | .chat (.error e) => WFString e
  | .touches _ fs => fs.length < 18446744073709551616 ∧ ∀ f ∈ fs, WFTouchFrame f
  | .judges _ js => js.length < 18446744073709551616
  | .message m => WFMessage m
  | .createRoom (.error e) => WFString e
  | .joinRoom (.ok j) => WFJoinRoomResponse j
  | .joinRoom (.error e) => WFString e
  | .onJoinRoom u => WFUserInfo u
  | .leaveRoom (.error e) => WFString e
  | .lockRoom (.error e) => WFString e
  | .cycleRoom (.error e) => WFString e
  | .selectChart (.error e) => WFString e
  | .requestStart (.error e) => WFString e
  | .ready (.error e) => WFString e
  | .cancelReady (.error e) => WFString e
  | .played (.error e) => WFString e
  | .abort (.error e) => WFString e
  | _ => True

/-- Whether `x` is in the `started` set of a `WaitForReady` state; an
executable probe used to state concrete facts about the readiness set. -/
def stateStartedHas (st : IState) (x : B32) : Bool :=
  match st with
  | .waitForReady s => decide (x ∈ s)
  | _ => false

/-- A concrete reachable room: host 1 and participant 3 playing, monitor 2
watching, chart 7 selected, start requested — so the room waits for
readiness with only the host in `started`. -/
def c5Room : SRoom :=
  { users := [⟨1, [], false⟩, ⟨3, [], false⟩], monitors := [⟨2, [], true⟩],
    host := some 1, state := .waitForReady {1}, chart := some ⟨7, []⟩,
    live := true, locked := false, cycle := false }

/-! # Theorems -/

/-! ## Bitwise arithmetic bridges -/

theorem lor_shiftLeft_eq_add {a b k : Nat} (h : a < 2 ^ k) :
    a ||| (b <<< k) = a + b * 2 ^ k := by
  induction k generalizing a b with
  | zero =>
    interval_cases a
    simp [Nat.shiftLeft_eq]
  | succ k ih =>
    have hb : b <<< (k + 1) = Nat.bit false (b <<< k) := by
      simp [Nat.bit_val, Nat.shiftLeft_eq, Nat.pow_succ]
      ring
    have ha : a = Nat.bit a.bodd a.div2 := (Nat.bit_decomp a).symm
    rw [ha, hb, Nat.lor_bit]
    have hd : a.div2 < 2 ^ k := by
      rw [Nat.div2_val]
      omega
    rw [Bool.or_false, ih hd, Nat.bit_val]
    have hsum := Nat.bodd_add_div2 a
    have h2 : b * 2 ^ (k + 1) = 2 * (b * 2 ^ k) := by ring
    omega

theorem rLE_wLE (k v : Nat) (rest : List Nat) :
    rLE k (wLE k v ++ rest) = some (v % 2 ^ (8 * k), rest) := by
  induction k generalizing v with
  | zero => simp [rLE, wLE, rPure, Nat.mod_one]
  | succ k ih =>
    simp only [wLE, rLE, rBind, rByte, List.cons_append, Option.bind, ih, rPure]
    have h1 : 2 ^ (8 * (k + 1)) = 256 * 2 ^ (8 * k) := by
      rw [show 8 * (k + 1) = 8 * k + 8 by ring, Nat.pow_add]
      ring
    have h2 : v % 2 ^ (8 * (k + 1)) = v % 256 + 256 * (v / 256 % 2 ^ (8 * k)) := by
      rw [h1, Nat.mod_mul]
    rw [h2]
    exact congrArg (fun x => some (x, rest)) (by omega)

theorem wUlebAux_fuel (fuel : Nat) : ∀ (fuel2 v : Nat), v ≤ fuel → v ≤ fuel2 →
    wUlebAux fuel v = wUlebAux fuel2 v := by
  induction fuel with
  | zero =>
    intro fuel2 v h _
    have hv : v = 0 := by omega
    subst hv
    cases fuel2 with
    | zero => rfl
    | succ f2 => simp [wUlebAux]
  | succ f ih =>
    intro fuel2 v h h2
    cases fuel2 with
    | zero =>
      have hv : v = 0 := by omega
      subst hv
      simp [wUlebAux]
    | succ f2 =>
      rw [wUlebAux, wUlebAux]
      by_cases hq : v / 128 = 0
      · rw [if_pos hq, if_pos hq]
      · rw [if_neg hq, if_neg hq]
        have hlt : v / 128 < v := Nat.div_lt_self (by omega) (by norm_num)
        rw [ih f2 (v / 128) (by omega) (by omega)]

/-- Unfolding lemma matching the source loop of `BinaryWriter::uleb`. -/
theorem wUleb_unfold (v : Nat) :
    wUleb v = if v / 128 = 0 then [v % 128] else (v % 128 + 128) :: wUleb (v / 128) := by
  show wUlebAux v v = _
  cases v with
  | zero => simp [wUlebAux]
  | succ n =>
    rw [wUlebAux]
    by_cases hq : (n + 1) / 128 = 0
    · rw [if_pos hq, if_pos hq]
    · rw [if_neg hq, if_neg hq]
      have hlt : (n + 1) / 128 < n + 1 := Nat.div_lt_self (by omega) (by norm_num)
      rw [wUlebAux_fuel n ((n + 1) / 128) ((n + 1) / 128) (by omega) (by omega)]
      rfl

theorem and_127_eq_mod (x : Nat) : x &&& 127 = x % 128 := by
  have h := Nat.and_pow_two_sub_one_eq_mod x 7
  norm_num at h
  exact h

theorem and_128_eq_zero {x : Nat} (h : x < 128) : x &&& 128 = 0 := by
  have h2 : x &&& 2 ^ 7 = (x.testBit 7).toNat * 2 ^ 7 := Nat.and_two_pow x 7
  rw [Nat.testBit_lt_two_pow (lt_of_lt_of_le h (by norm_num))] at h2
  simpa using h2

theorem and_128_pos {x : Nat} (h1 : 128 ≤ x) (h2 : x < 256) : x &&& 128 = 128 := by
  have h3 : x &&& 2 ^ 7 = (x.testBit 7).toNat * 2 ^ 7 := Nat.and_two_pow x 7
  have h4 : x.testBit 7 = true := by
    simp only [Nat.testBit_to_div_mod, decide_eq_true_eq]
    omega
  rw [h4] at h3
  simpa using h3

/-- ULEB128 round trip at the accumulator level: decoding the canonical
encoding of `v` appended to `rest`, starting from any consistent
accumulator state, succeeds. -/
theorem rUlebAux_wUleb (v : Nat) : ∀ (shift acc : Nat) (rest : List Nat),
    shift ≤ 63 → v < 2 ^ (64 - shift) → acc < 2 ^ shift →
    rUlebAux (wUleb v ++ rest) shift acc = some (acc + v * 2 ^ shift, rest) := by
  induction v using Nat.strong_induction_on with
  | _ v ih =>
    intro shift acc rest hs hv ha
    have hs64 : shift % 64 = shift := Nat.mod_eq_of_lt (by omega)
    have hpow : 2 ^ (64 - shift) * 2 ^ shift = 2 ^ 64 := by
      rw [← pow_add]
      congr 1
      omega
    rw [wUleb_unfold]
    by_cases h : v / 128 = 0
    · have hv128 : v < 128 := by omega
      rw [if_pos h]
      simp only [List.cons_append, rUlebAux, Nat.mod_eq_of_lt hv128, hs64]
      rw [and_127_eq_mod, Nat.mod_eq_of_lt hv128, and_128_eq_zero hv128,
        lor_shiftLeft_eq_add ha]
      have hlt : acc + v * 2 ^ shift < 2 ^ 64 := by
        calc acc + v * 2 ^ shift < 2 ^ shift + v * 2 ^ shift := by omega
          _ = (v + 1) * 2 ^ shift := by ring
          _ ≤ 2 ^ (64 - shift) * 2 ^ shift := Nat.mul_le_mul_right _ (by omega)
          _ = 2 ^ 64 := hpow
      rw [if_pos rfl]
      exact congrArg (fun x => some (x, rest)) (Nat.mod_eq_of_lt hlt)
    · have hv128 : 128 ≤ v := by
        rcases Nat.lt_or_ge v 128 with hlt | hge
        · exact absurd (Nat.div_eq_of_lt hlt) h
        · exact hge
      have hshift56 : shift ≤ 56 := by
        by_contra hc
        have h64s : 64 - shift ≤ 7 := by omega
        have : (2:Nat) ^ (64 - shift) ≤ 2 ^ 7 :=
          Nat.pow_le_pow_right (by norm_num) h64s
        omega
      rw [if_neg h]
      simp only [List.cons_append, rUlebAux, hs64]
      have hb127 : (v % 128 + 128) &&& 127 = v % 128 := by
        rw [and_127_eq_mod]
        omega
      have hb128 : (v % 128 + 128) &&& 128 = 128 := by
        refine and_128_pos (by omega) (by omega)
      rw [hb127, hb128, lor_shiftLeft_eq_add ha]
      have hp7 : (2:Nat) ^ (shift + 7) = 2 ^ shift * 128 := by
        rw [pow_add]
        norm_num
      have hacc' : acc + v % 128 * 2 ^ shift < 2 ^ (shift + 7) := by
        have h6 : v % 128 * 2 ^ shift ≤ 127 * 2 ^ shift :=
          Nat.mul_le_mul_right _ (by omega)
        have h5 : (0:Nat) < 2 ^ shift := Nat.two_pow_pos _
        rw [hp7]
        nlinarith
      have haccmod : (acc + v % 128 * 2 ^ shift) % 18446744073709551616
          = acc + v % 128 * 2 ^ shift := by
        refine Nat.mod_eq_of_lt ?_
        have h7 : (2:Nat) ^ (shift + 7) ≤ 2 ^ 63 :=
          Nat.pow_le_pow_right (by norm_num) (by omega)
        calc acc + v % 128 * 2 ^ shift < 2 ^ (shift + 7) := hacc'
        _ ≤ 2 ^ 63 := h7
        _ < 18446744073709551616 := by norm_num
      rw [if_neg (by omega), haccmod]
      have hdiv : v / 128 < 2 ^ (64 - (shift + 7)) := by
        have h8 : (2:Nat) ^ (64 - (shift + 7)) * 128 = 2 ^ (64 - shift) := by
          have : (2:Nat) ^ (64 - (shift + 7)) * 128 = 2 ^ (64 - (shift + 7)) * 2 ^ 7 := by
            norm_num
          rw [this, ← pow_add]
          congr 1
          omega
        refine Nat.div_lt_of_lt_mul ?_
        omega
      have hrec := ih (v / 128) (Nat.div_lt_self (by omega) (by norm_num)) (shift + 7)
        (acc + v % 128 * 2 ^ shift) rest (by omega) hdiv hacc'
      refine hrec.trans (congrArg (fun x => some (x, rest)) ?_)
      have hvdm : 128 * (v / 128) + v % 128 = v := Nat.div_add_mod v 128
      calc acc + v % 128 * 2 ^ shift + v / 128 * 2 ^ (shift + 7)
          = acc + (v % 128 + 128 * (v / 128)) * 2 ^ shift := by
            rw [hp7]
            ring
        _ = acc + v * 2 ^ shift := by rw [Nat.add_comm (v % 128), hvdm]

/-- ULEB128 round trip: `BinaryReader::uleb` decodes what
`BinaryWriter::uleb` wrote, for every value a Rust `u64` can hold. -/
theorem rUleb_wUleb {v : Nat} (hv : v < 18446744073709551616) (rest : List Nat) :
    rUleb (wUleb v ++ rest) = some (v, rest) := by
  have h := rUlebAux_wUleb v 0 0 rest (by norm_num) (by norm_num; omega) (by norm_num)
  simpa [rUleb] using h

/-! ## UTF-8: lossy decoding inverts encoding on valid data -/

theorem utf8DecodeLossyAux_fuel (fuel : Nat) :
    ∀ (fuel2 : Nat) (l : List Nat), l.length ≤ fuel → l.length ≤ fuel2 →
      utf8DecodeLossyAux fuel l = utf8DecodeLossyAux fuel2 l := by
  induction fuel with
  | zero =>
    intro fuel2 l h _
    have : l = [] := List.length_eq_zero.mp (by omega)
    subst this
    cases fuel2 <;> rfl
  | succ f ih =>
    intro fuel2 l h h2
    cases l with
    | nil => cases fuel2 <;> rfl
    | cons b0 rest =>
      cases fuel2 with
      | zero => simp at h2
      | succ f2 =>
        rw [utf8DecodeLossyAux, utf8DecodeLossyAux]
        have hd : (rest.drop (utf8Step b0 rest).2).length ≤ f := by
          simp only [List.length_drop]
          simp only [List.length_cons] at h
          omega
        have hd2 : (rest.drop (utf8Step b0 rest).2).length ≤ f2 := by
          simp only [List.length_drop]
          simp only [List.length_cons] at h2
          omega
        rw [ih f2 _ hd hd2]

/-- Unfolding lemma for the lossy decoder on a non-empty input. -/
theorem utf8DecodeLossy_cons (b0 : Nat) (rest : List Nat) :
    utf8DecodeLossy (b0 :: rest) =
      (utf8Step b0 rest).1 ::
        utf8DecodeLossy (rest.drop (utf8Step b0 rest).2) := by
  show utf8DecodeLossyAux (rest.length + 1) (b0 :: rest) = _
  rw [utf8DecodeLossyAux]
  rw [utf8DecodeLossyAux_fuel rest.length (rest.drop (utf8Step b0 rest).2).length _
    (by simp [List.length_drop]) (by rfl)]
  rfl

/-- Decoding one encoded scalar value at the head of a byte stream yields
exactly that character and continues with the remaining bytes. -/
theorem utf8Step_encodeAscii {v : Nat} (h1 : v < 128) (hval : ScalarValue v)
    (tail : List Nat) : utf8Step v tail = (⟨v, hval⟩, 0) := by
  rw [utf8Step, dif_pos h1]

theorem utf8Step_encode2 {v : Nat} (h1 : 128 ≤ v) (h2 : v < 2048) (hval : ScalarValue v)
    (tail : List Nat) :
    utf8Step (192 + v / 64) ((128 + v % 64) :: tail) = (⟨v, hval⟩, 1) := by
  rw [utf8Step]
  simp only [List.getD_cons_zero, List.getD_cons_succ]
  rw [dif_neg (by omega : ¬ 192 + v / 64 < 128)]
  rw [if_neg (by omega : ¬ 192 + v / 64 < 194)]
  rw [dif_pos (by omega : 192 + v / 64 < 224)]
  rw [dif_pos (by omega : 128 ≤ 128 + v % 64 ∧ 128 + v % 64 < 192)]
  exact congrArg (fun x => (x, 1)) (Subtype.ext (by dsimp only; omega))

theorem utf8Step_encode3 {v : Nat} (h2 : 2048 ≤ v) (h3 : v < 65536) (hval : ScalarValue v)
    (tail : List Nat) :
    utf8Step (224 + v / 4096) ((128 + v / 64 % 64) :: (128 + v % 64) :: tail)
      = (⟨v, hval⟩, 2) := by
  have hval' : v < 55296 ∨ (57343 < v ∧ v ≤ 1114111) := hval
  rw [utf8Step]
  simp only [List.getD_cons_zero, List.getD_cons_succ]
  rw [dif_neg (by omega : ¬ 224 + v / 4096 < 128)]
  rw [if_neg (by omega : ¬ 224 + v / 4096 < 194)]
  rw [dif_neg (by omega : ¬ 224 + v / 4096 < 224)]
  rw [dif_pos (by omega : 224 + v / 4096 < 240)]
  rw [dif_pos (by omega :
    (224 + v / 4096 = 224 → 160 ≤ 128 + v / 64 % 64) ∧
    (224 + v / 4096 = 237 → 128 + v / 64 % 64 ≤ 159) ∧
    128 ≤ 128 + v / 64 % 64 ∧ 128 + v / 64 % 64 < 192)]
  rw [dif_pos (by omega : 128 ≤ 128 + v % 64 ∧ 128 + v % 64 < 192)]
  exact congrArg (fun x => (x, 2)) (Subtype.ext (by dsimp only; omega))

theorem utf8Step_encode4 {v : Nat} (h3 : 65536 ≤ v) (h4 : v ≤ 1114111)
    (hval : ScalarValue v) (tail : List Nat) :
    utf8Step (240 + v / 262144)
      ((128 + v / 4096 % 64) :: (128 + v / 64 % 64) :: (128 + v % 64) :: tail)
      = (⟨v, hval⟩, 3) := by
  rw [utf8Step]
  simp only [List.getD_cons_zero, List.getD_cons_succ]
  rw [dif_neg (by omega : ¬ 240 + v / 262144 < 128)]
  rw [if_neg (by omega : ¬ 240 + v / 262144 < 194)]
  rw [dif_neg (by omega : ¬ 240 + v / 262144 < 224)]
  rw [dif_neg (by omega : ¬ 240 + v / 262144 < 240)]
  rw [dif_pos (by omega : 240 + v / 262144 < 245)]
  rw [dif_pos (by omega :
    (240 + v / 262144 = 240 → 144 ≤ 128 + v / 4096 % 64) ∧
    (240 + v / 262144 = 244 → 128 + v / 4096 % 64 ≤ 143) ∧
    128 ≤ 128 + v / 4096 % 64 ∧ 128 + v / 4096 % 64 < 192)]
  rw [dif_pos (by omega : 128 ≤ 128 + v / 64 % 64 ∧ 128 + v / 64 % 64 < 192)]
  rw [dif_pos (by omega : 128 ≤ 128 + v % 64 ∧ 128 + v % 64 < 192)]
  exact congrArg (fun x => (x, 3)) (Subtype.ext (by dsimp only; omega))

theorem utf8DecodeLossy_encodeScalar_cons (c : UChar) (tail : List Nat) :
    utf8DecodeLossy (utf8EncodeScalar c.val ++ tail) = c :: utf8DecodeLossy tail := by
  obtain ⟨v, hval⟩ := c
  have hval' : v < 55296 ∨ (57343 < v ∧ v ≤ 1114111) := hval
  rcases Nat.lt_or_ge v 128 with h1 | h1
  · simp only [utf8EncodeScalar, if_pos h1, List.cons_append, List.nil_append]
    rw [utf8DecodeLossy_cons, utf8Step_encodeAscii h1 hval]
    rfl
  · rcases Nat.lt_or_ge v 2048 with h2 | h2
    · simp only [utf8EncodeScalar, if_neg (by omega : ¬ v < 128), if_pos h2,
        List.cons_append, List.nil_append]
      rw [utf8DecodeLossy_cons, utf8Step_encode2 h1 h2 hval]
      rfl
    · rcases Nat.lt_or_ge v 65536 with h3 | h3
      · simp only [utf8EncodeScalar, if_neg (by omega : ¬ v < 128),
          if_neg (by omega : ¬ v < 2048), if_pos h3, List.cons_append, List.nil_append]
        rw [utf8DecodeLossy_cons, utf8Step_encode3 h2 h3 hval]
        rfl
      · simp only [utf8EncodeScalar, if_neg (by omega : ¬ v < 128),
          if_neg (by omega : ¬ v < 2048), if_neg (by omega : ¬ v < 65536),
          List.cons_append, List.nil_append]
        rw [utf8DecodeLossy_cons, utf8Step_encode4 h3 (by omega) hval]
        rfl

/-- `String::from_utf8_lossy` is the identity on the UTF-8 image of any
string: decoding what `write_binary` wrote recovers the string exactly. -/
theorem utf8DecodeLossy_utf8Encode (s : RString) :
    utf8DecodeLossy (utf8Encode s) = s := by
  induction s with
  | nil => rfl
  | cons c t ih =>
    have : utf8Encode (c :: t) = utf8EncodeScalar c.val ++ utf8Encode t := by
      simp [utf8Encode]
    rw [this, utf8DecodeLossy_encodeScalar_cons, ih]

/-! ## Reader evaluation lemmas -/

@[simp] theorem rPure_eval {α : Type} (a : α) (l : List Nat) : rPure a l = some (a, l) := rfl

@[simp] theorem rFail_eval {α : Type} (l : List Nat) : (rFail : RdM α) l = none := rfl

@[simp] theorem rByte_cons (b : Nat) (rest : List Nat) : rByte (b :: rest) = some (b, rest) :=
  rfl

@[simp] theorem rBind_eval {α β : Type} (m : RdM α) (f : α → RdM β) (l : List Nat) :
    rBind m f l = Option.bind (m l) (fun p => f p.1 p.2) := rfl

@[simp] theorem rMap_eval {α β : Type} (f : α → β) (m : RdM α) (l : List Nat) :
    rMap f m l = Option.bind (m l) (fun p => some (f p.1, p.2)) := rfl

/-! ## Round trips for the primitive codecs -/

@[simp] theorem rBool_rt (b : Bool) (rest : List Nat) :
    rBool (wBool b ++ rest) = some (b, rest) := by
  cases b <;> rfl

@[simp] theorem rB8_rt (v : B8) (rest : List Nat) :
    rB8 (wB8 v ++ rest) = some (v, rest) := by
  simp only [rB8, wB8, List.cons_append, List.nil_append, rBind_eval, rByte_cons,
    Option.some_bind, rPure_eval]
  exact congrArg (fun x => some (x, rest)) (Fin.ext (Nat.mod_eq_of_lt v.isLt))

@[simp] theorem rB16_rt (v : B16) (rest : List Nat) :
    rB16 (wB16 v ++ rest) = some (v, rest) := by
  have hlt := v.isLt
  simp only [rB16, wB16, rBind_eval, rLE_wLE, Option.some_bind, rPure_eval]
  exact congrArg (fun x => some (x, rest)) (Fin.ext (by norm_num))

@[simp] theorem rB32_rt (v : B32) (rest : List Nat) :
    rB32 (wB32 v ++ rest) = some (v, rest) := by
  have hlt := v.isLt
  simp only [rB32, wB32, rBind_eval, rLE_wLE, Option.some_bind, rPure_eval]
  exact congrArg (fun x => some (x, rest)) (Fin.ext (by norm_num))

@[simp] theorem rB64_rt (v : B64) (rest : List Nat) :
    rB64 (wB64 v ++ rest) = some (v, rest) := by
  have hlt := v.isLt
  simp only [rB64, wB64, rBind_eval, rLE_wLE, Option.some_bind, rPure_eval]
  exact congrArg (fun x => some (x, rest)) (Fin.ext (by norm_num))

@[simp] theorem rUnit_rt (rest : List Nat) : rUnit (wUnit () ++ rest) = some ((), rest) := rfl

theorem rPair_rt {α β : Type} {rA : RdM α} {wA : α → List Nat} {rB : RdM β}
    {wB : β → List Nat} {a : α} {b : β}
    (hA : ∀ rest, rA (wA a ++ rest) = some (a, rest))
    (hB : ∀ rest, rB (wB b ++ rest) = some (b, rest)) (rest : List Nat) :
    rPair rA rB (wPair wA wB (a, b) ++ rest) = some ((a, b), rest) := by
  simp [rPair, wPair, hA, hB]

theorem rOption_rt {α : Type} {rA : RdM α} {wA : α → List Nat} {o : Option α}
    (hA : ∀ a ∈ o, ∀ rest, rA (wA a ++ rest) = some (a, rest)) (rest : List Nat) :
    rOption rA (wOption wA o ++ rest) = some (o, rest) := by
  cases o with
  | none => simp [rOption, wOption]
  | some a => simp [rOption, wOption, hA a rfl]

theorem rResult_rt {α ε : Type} {rA : RdM α} {wA : α → List Nat} {rE : RdM ε}
    {wE : ε → List Nat} {x : Except ε α}
    (hA : ∀ a, x = Except.ok a → ∀ rest, rA (wA a ++ rest) = some (a, rest))
    (hE : ∀ e, x = Except.error e → ∀ rest, rE (wE e ++ rest) = some (e, rest))
    (rest : List Nat) :
    rResult rA rE (wResult wA wE x ++ rest) = some (x, rest) := by
  cases x with
  | ok a => simp [rResult, wResult, hA a rfl]
  | error e => simp [rResult, wResult, hE e rfl]

theorem rCount_rt {α : Type} {rA : RdM α} {wA : α → List Nat} {l : List α}
    (hA : ∀ a ∈ l, ∀ rest, rA (wA a ++ rest) = some (a, rest)) (rest : List Nat) :
    rCount rA l.length ((l.map wA).flatten ++ rest) = some (l, rest) := by
  induction l with
  | nil => simp [rCount]
  | cons a t ih =>
    simp only [List.map_cons, List.flatten_cons, List.length_cons, List.append_assoc,
      rCount, rBind_eval, hA a (by simp), Option.some_bind]
    rw [ih (fun x hx => hA x (by simp [hx]))]
    rfl

theorem rList_rt {α : Type} {rA : RdM α} {wA : α → List Nat} {l : List α}
    (hA : ∀ a ∈ l, ∀ rest, rA (wA a ++ rest) = some (a, rest))
    (hlen : l.length < 18446744073709551616) (rest : List Nat) :
    rList rA (wList wA l ++ rest) = some (l, rest) := by
  simp only [rList, wList, List.append_assoc, rBind_eval, rUleb_wUleb hlen,
    Option.some_bind]
  exact rCount_rt hA rest

theorem rHashMap_rt {κ ν : Type} {rK : RdM κ} {wK : κ → List Nat} {rV : RdM ν}
    {wV : ν → List Nat} {m : List (κ × ν)}
    (hK : ∀ p ∈ m, ∀ rest, rK (wK p.1 ++ rest) = some (p.1, rest))
    (hV : ∀ p ∈ m, ∀ rest, rV (wV p.2 ++ rest) = some (p.2, rest))
    (hlen : m.length < 18446744073709551616) (rest : List Nat) :
    rHashMap rK rV (wHashMap wK wV m ++ rest) = some (m, rest) := by
  simp only [rHashMap, wHashMap, List.append_assoc, rBind_eval, rUleb_wUleb hlen,
    Option.some_bind]
  have h : ∀ p ∈ m, ∀ rest',
      rPair rK rV ((wK p.1 ++ wV p.2) ++ rest') = some (p, rest') := by
    intro p hp rest'
    obtain ⟨pk, pv⟩ := p
    have h1 := rPair_rt (fun r => hK ⟨pk, pv⟩ hp r) (fun r => hV ⟨pk, pv⟩ hp r) rest'
    simpa [wPair] using h1
  have h2 := @rCount_rt _ (rPair rK rV) (fun p => wK p.1 ++ wV p.2) m h rest
  simpa using h2

@[simp] theorem rUuid_rt (u : Uuid) (rest : List Nat) :
    rUuid (wUuid u ++ rest) = some (u, rest) := by
  simp [rUuid, wUuid]

@[simp] theorem rCompactPos_rt (p : CompactPos) (rest : List Nat) :
    rCompactPos (wCompactPos p ++ rest) = some (p, rest) := by
  simp [rCompactPos, wCompactPos]

@[simp] theorem rJudgement_rt (j : Judgement) (rest : List Nat) :
    rJudgement (wJudgement j ++ rest) = some (j, rest) := by
  cases j <;> rfl

@[simp] theorem rJudgeEvent_rt (e : JudgeEvent) (rest : List Nat) :
    rJudgeEvent (wJudgeEvent e ++ rest) = some (e, rest) := by
  obtain ⟨t, li, ni, j⟩ := e
  simp [rJudgeEvent, wJudgeEvent]

/-! ## Round trips for strings, Varchar, RoomId, Timestamp -/

@[simp] theorem rTake_exact (l rest : List Nat) :
    rTake l.length (l ++ rest) = some (l, rest) := by
  simp [rTake, List.take_left, List.drop_left, List.length_append, Nat.le_add_right]

theorem rString_rt {s : RString} (h : WFString s) (rest : List Nat) :
    rString (wString s ++ rest) = some (s, rest) := by
  simp only [rString, wString, List.append_assoc, rBind_eval, rUleb_wUleb h,
    Option.some_bind]
  rw [show byteLen s = (utf8Encode s).length from rfl, rTake_exact]
  simp [utf8DecodeLossy_utf8Encode]

theorem rVarchar_rt {N : Nat} {s : RString} (hN : WFVarchar N s)
    (h : WFString s) (rest : List Nat) :
    rVarchar N (wVarchar s ++ rest) = some (s, rest) := by
  simp only [rVarchar, wVarchar, wString, List.append_assoc, rBind_eval, rUleb_wUleb h,
    Option.some_bind]
  rw [if_neg (by exact Nat.not_lt.mpr hN : ¬ byteLen s > N)]
  simp only [rBind_eval]
  rw [show byteLen s = (utf8Encode s).length from rfl, rTake_exact]
  simp [utf8DecodeLossy_utf8Encode]

theorem rRoomId_rt {s : RString} (hok : WFRoomId s) (rest : List Nat) :
    rRoomId (wRoomId s ++ rest) = some (s, rest) := by
  obtain ⟨hval, hlen⟩ := hok
  have h64 : WFString s := by
    unfold WFString
    omega
  rw [show wRoomId s = wVarchar s from rfl]
  simp only [rRoomId, rBind_eval, rVarchar_rt hlen h64, Option.some_bind]
  rw [if_pos hval]
  rfl

theorem rB64_wLE {x : Nat} (hx : x < 18446744073709551616) (rest : List Nat) :
    rB64 (wLE 8 x ++ rest) = some (⟨x, hx⟩, rest) := by
  simp only [rB64, rBind_eval, rLE_wLE, Option.some_bind, rPure_eval]
  exact congrArg (fun y => some (y, rest)) (Fin.ext (by norm_num [Nat.mod_eq_of_lt hx]))

theorem rTimestamp_rt {t : Timestamp} (hsub : t.subnanos = 0) (hr : tsInRange t.millis)
    (rest : List Nat) : rTimestamp (wTimestamp t ++ rest) = some (t, rest) := by
  obtain ⟨hlo, hhi⟩ := hr
  have hb : (t.millis % 18446744073709551616).toNat < 18446744073709551616 := by omega
  simp only [rTimestamp, wTimestamp, rBind_eval, rB64_wLE hb, Option.some_bind]
  have hm : (if ((t.millis % 18446744073709551616).toNat : Nat) < 9223372036854775808 then
      (((t.millis % 18446744073709551616).toNat : Nat) : Int)
      else (((t.millis % 18446744073709551616).toNat : Nat) : Int) - 18446744073709551616)
      = t.millis := by
    rcases Int.lt_or_le t.millis 0 with hneg | hpos
    · rw [if_neg (by omega)]
      omega
    · rw [if_pos (by omega)]
      omega
  rw [hm, if_pos ⟨hlo, hhi⟩]
  have hs : t.subnanos = 0 := hsub
  cases t with
  | mk tm ts =>
    have hs2 : ts = 0 := hs
    subst hs2
    rfl

/-! ## Round trips for the composite wire types -/

theorem rUserInfo_rt {u : UserInfo} (h : WFUserInfo u) (rest : List Nat) :
    rUserInfo (wUserInfo u ++ rest) = some (u, rest) := by
  obtain ⟨id, name, monitor⟩ := u
  have hs : ∀ r, rString (wString name ++ r) = some (name, r) := fun r => rString_rt h r
  simp [rUserInfo, wUserInfo, hs]

theorem rTouchFrame_rt {f : TouchFrame} (h : WFTouchFrame f) (rest : List Nat) :
    rTouchFrame (wTouchFrame f ++ rest) = some (f, rest) := by
  obtain ⟨time, points⟩ := f
  have hA : ∀ p ∈ points, ∀ r,
      rPair rB8 rCompactPos (wPair wB8 wCompactPos p ++ r) = some (p, r) := by
    intro p _ r
    obtain ⟨x, y⟩ := p
    exact rPair_rt (fun r' => rB8_rt x r') (fun r' => rCompactPos_rt y r') r
  have hl : ∀ r, rList (rPair rB8 rCompactPos)
      (wList (wPair wB8 wCompactPos) points ++ r) = some (points, r) :=
    fun r => rList_rt hA h r
  simp [rTouchFrame, wTouchFrame, hl]

@[simp] theorem rRoomState_rt (s : RoomState) (rest : List Nat) :
    rRoomState (wRoomState s ++ rest) = some (s, rest) := by
  cases s with
  | selectChart chart =>
    have ho : ∀ r, rOption rB32 (wOption wB32 chart ++ r) = some (chart, r) :=
      fun r => @rOption_rt B32 rB32 wB32 chart (fun a _ r' => rB32_rt a r') r
    simp [rRoomState, wRoomState, ho]
  | waitingForReady => rfl
  | playing => rfl

theorem rMessage_rt {m : Message} (h : WFMessage m) (rest : List Nat) :
    rMessage (wMessage m ++ rest) = some (m, rest) := by
  cases m with
  | chat u c =>
    have hc : ∀ r, rString (wString c ++ r) = some (c, r) := fun r => rString_rt h r
    simp [rMessage, wMessage, hc]
  | joinRoom u n =>
    have hc : ∀ r, rString (wString n ++ r) = some (n, r) := fun r => rString_rt h r
    simp [rMessage, wMessage, hc]
  | leaveRoom u n =>
    have hc : ∀ r, rString (wString n ++ r) = some (n, r) := fun r => rString_rt h r
    simp [rMessage, wMessage, hc]
  | selectChart u n i =>
    have hc : ∀ r, rString (wString n ++ r) = some (n, r) := fun r => rString_rt h r
    simp [rMessage, wMessage, hc]
  | createRoom u => simp [rMessage, wMessage]
  | newHost u => simp [rMessage, wMessage]
  | gameStart u => simp [rMessage, wMessage]
  | ready u => simp [rMessage, wMessage]
  | cancelReady u => simp [rMessage, wMessage]
  | cancelGame u => simp [rMessage, wMessage]
  | startPlaying => rfl
  | played u sc a f => simp [rMessage, wMessage]
  | gameEnd => rfl
  | abort u => simp [rMessage, wMessage]
  | lockRoom l => simp [rMessage, wMessage]
  | cycleRoom cy => simp [rMessage, wMessage]

theorem rClientRoomState_rt {c : ClientRoomState} (h : WFClientRoomState c)
    (rest : List Nat) : rClientRoomState (wClientRoomState c ++ rest) = some (c, rest) := by
  obtain ⟨id, state, live, locked, cycle, isHost, isReady, users⟩ := c
  obtain ⟨hid, hlen, husers⟩ := h
  have hmap : ∀ r, rHashMap rB32 rUserInfo (wHashMap wB32 wUserInfo users ++ r)
      = some (users, r) := by
    intro r
    exact rHashMap_rt (fun p _ r' => rB32_rt p.1 r')
      (fun p hp r' => rUserInfo_rt (husers p hp) r') hlen r
  have hrid : ∀ r, rRoomId (wRoomId id ++ r) = some (id, r) := fun r => rRoomId_rt hid r
  simp [rClientRoomState, wClientRoomState, hrid, hmap]

theorem rJoinRoomResponse_rt {j : JoinRoomResponse} (h : WFJoinRoomResponse j)
    (rest : List Nat) : rJoinRoomResponse (wJoinRoomResponse j ++ rest) = some (j, rest) := by
  obtain ⟨state, users, live⟩ := j
  obtain ⟨hlen, husers⟩ := h
  have hl : ∀ r, rList rUserInfo (wList wUserInfo users ++ r) = some (users, r) :=
    fun r => rList_rt (fun u hu r' => rUserInfo_rt (husers u hu) r') hlen r
  simp [rJoinRoomResponse, wJoinRoomResponse, hl]

theorem rClientCommand_rt {c : ClientCommand} (h : WFClientCommand c) (rest : List Nat) :
    rClientCommand (wClientCommand c ++ rest) = some (c, rest) := by
  cases c with
  | authenticate t =>
    have h32 : WFVarchar 32 t := h
    have h64 : WFString t := by
      unfold WFString
      unfold WFVarchar at h32
      omega
    have hv : ∀ r, rVarchar 32 (wVarchar t ++ r) = some (t, r) :=
      fun r => rVarchar_rt h32 h64 r
    simp [rClientCommand, wClientCommand, hv]
  | chat t =>
    have h200 : WFVarchar 200 t := h
    have h64 : WFString t := by
      unfold WFString
      unfold WFVarchar at h200
      omega
    have hv : ∀ r, rVarchar 200 (wVarchar t ++ r) = some (t, r) :=
      fun r => rVarchar_rt h200 h64 r
    simp [rClientCommand, wClientCommand, hv]
  | touches fs =>
    obtain ⟨hlen, hfs⟩ := h
    have hl : ∀ r, rList rTouchFrame (wList wTouchFrame fs ++ r) = some (fs, r) :=
      fun r => rList_rt (fun f hf r' => rTouchFrame_rt (hfs f hf) r') hlen r
    simp [rClientCommand, wClientCommand, hl]
  | judges js =>
    have hl : ∀ r, rList rJudgeEvent (wList wJudgeEvent js ++ r) = some (js, r) :=
      fun r => rList_rt (fun e _ r' => rJudgeEvent_rt e r') h r
    simp [rClientCommand, wClientCommand, hl]
  | createRoom id =>
    have hrid : ∀ r, rRoomId (wRoomId id ++ r) = some (id, r) := fun r => rRoomId_rt h r
    simp [rClientCommand, wClientCommand, hrid]
  | joinRoom id monitor =>
    have hrid : ∀ r, rRoomId (wRoomId id ++ r) = some (id, r) := fun r => rRoomId_rt h r
    simp [rClientCommand, wClientCommand, hrid]
  | selectChart id => simp [rClientCommand, wClientCommand]
  | played id => simp [rClientCommand, wClientCommand]
  | lockRoom lock => simp [rClientCommand, wClientCommand]
  | cycleRoom cycle => simp [rClientCommand, wClientCommand]
  | ping => rfl
  | leaveRoom => rfl
  | requestStart => rfl
  | ready => rfl
  | cancelReady => rfl
  | abort => rfl

theorem rResultUS_rt {x : Except RString Unit} (h : ∀ e, x = Except.error e → WFString e)
    (rest : List Nat) :
    rResult rUnit rString (wResult wUnit wString x ++ rest) = some (x, rest) := by
  refine rResult_rt (fun a _ r => ?_) (fun e he r => rString_rt (h e he) r) rest
  cases a
  exact rUnit_rt r

theorem rServerCommand_rt {c : ServerCommand} (h : WFServerCommand c) (rest : List Nat) :
    rServerCommand (wServerCommand c ++ rest) = some (c, rest) := by
  cases c with
  | pong => rfl
  | authenticate res =>
    have hres : ∀ r, rResult (rPair rUserInfo (rOption rClientRoomState)) rString
        (wResult (wPair wUserInfo (wOption wClientRoomState)) wString res ++ r)
        = some (res, r) := by
      intro r
      refine rResult_rt (fun a ha r' => ?_) (fun e he r' => ?_) r
      · obtain ⟨u, rs⟩ := a
        rw [ha] at h
        refine rPair_rt (fun r'' => rUserInfo_rt h.1 r'') (fun r'' => ?_) r'
        exact @rOption_rt ClientRoomState rClientRoomState wClientRoomState rs
          (fun s hs r3 => rClientRoomState_rt (h.2 s hs) r3) r''
      · rw [he] at h
        exact rString_rt h r'
    simp [rServerCommand, wServerCommand, hres]
  | chat res =>
    have hres : ∀ r, rResult rUnit rString (wResult wUnit wString res ++ r)
        = some (res, r) :=
      fun r => rResultUS_rt (fun e he => by rw [he] at h; exact h) r
    simp [rServerCommand, wServerCommand, hres]
  | touches p fs =>
    obtain ⟨hlen, hfs⟩ := h
    have hl : ∀ r, rList rTouchFrame (wList wTouchFrame fs ++ r) = some (fs, r) :=
      fun r => rList_rt (fun f hf r' => rTouchFrame_rt (hfs f hf) r') hlen r
    simp [rServerCommand, wServerCommand, hl]
  | judges p js =>
    have hl : ∀ r, rList rJudgeEvent (wList wJudgeEvent js ++ r) = some (js, r) :=
      fun r => rList_rt (fun e _ r' => rJudgeEvent_rt e r') h r
    simp [rServerCommand, wServerCommand, hl]
  | message m =>
    have hm : ∀ r, rMessage (wMessage m ++ r) = some (m, r) := fun r => rMessage_rt h r
    simp [rServerCommand, wServerCommand, hm]
  | changeState s => simp [rServerCommand, wServerCommand]
  | changeHost b => simp [rServerCommand, wServerCommand]
  | createRoom res =>
    have hres : ∀ r, rResult rUnit rString (wResult wUnit wString res ++ r)
        = some (res, r) :=
      fun r => rResultUS_rt (fun e he => by rw [he] at h; exact h) r
    simp [rServerCommand, wServerCommand, hres]
  | joinRoom res =>
    have hres : ∀ r, rResult rJoinRoomResponse rString
        (wResult wJoinRoomResponse wString res ++ r) = some (res, r) := by
      intro r
      refine rResult_rt (fun a ha r' => ?_) (fun e he r' => ?_) r
      · rw [ha] at h
        exact rJoinRoomResponse_rt h r'
      · rw [he] at h
        exact rString_rt h r'
    simp [rServerCommand, wServerCommand, hres]
  | onJoinRoom u =>
    have hu : ∀ r, rUserInfo (wUserInfo u ++ r) = some (u, r) :=
      fun r => rUserInfo_rt h r
    simp [rServerCommand, wServerCommand, hu]
  | leaveRoom res =>
    have hres : ∀ r, rResult rUnit rString (wResult wUnit wString res ++ r)
        = some (res, r) :=
      fun r => rResultUS_rt (fun e he => by rw [he] at h; exact h) r
    simp [rServerCommand, wServerCommand, hres]
  | lockRoom res =>
    have hres : ∀ r, rResult rUnit rString (wResult wUnit wString res ++ r)
        = some (res, r) :=
      fun r => rResultUS_rt (fun e he => by rw [he] at h; exact h) r
    simp [rServerCommand, wServerCommand, hres]
  | cycleRoom res =>
    have hres : ∀ r, rResult rUnit rString (wResult wUnit wString res ++ r)
        = some (res, r) :=
      fun r => rResultUS_rt (fun e he => by rw [he] at h; exact h) r
    simp [rServerCommand, wServerCommand, hres]
  | selectChart res =>
    have hres : ∀ r, rResult rUnit rString (wResult wUnit wString res ++ r)
        = some (res, r) :=
      fun r => rResultUS_rt (fun e he => by rw [he] at h; exact h) r
    simp [rServerCommand, wServerCommand, hres]
  | requestStart res =>
    have hres : ∀ r, rResult rUnit rString (wResult wUnit wString res ++ r)
        = some (res, r) :=
      fun r => rResultUS_rt (fun e he => by rw [he] at h; exact h) r
    simp [rServerCommand, wServerCommand, hres]
  | ready res =>
    have hres : ∀ r, rResult rUnit rString (wResult wUnit wString res ++ r)
        = some (res, r) :=
      fun r => rResultUS_rt (fun e he => by rw [he] at h; exact h) r
    simp [rServerCommand, wServerCommand, hres]
  | cancelReady res =>
    have hres : ∀ r, rResult rUnit rString (wResult wUnit wString res ++ r)
        = some (res, r) :=
      fun r => rResultUS_rt (fun e he => by rw [he] at h; exact h) r
    simp [rServerCommand, wServerCommand, hres]
  | played res =>
    have hres : ∀ r, rResult rUnit rString (wResult wUnit wString res ++ r)
        = some (res, r) :=
      fun r => rResultUS_rt (fun e he => by rw [he] at h; exact h) r
    simp [rServerCommand, wServerCommand, hres]
  | abort res =>
    have hres : ∀ r, rResult rUnit rString (wResult wUnit wString res ++ r)
        = some (res, r) :=
      fun r => rResultUS_rt (fun e he => by rw [he] at h; exact h) r
    simp [rServerCommand, wServerCommand, hres]

/-! ## Claim C10: boolean decoding -/

/-- C10: decoding a boolean is total on any one-byte input and never
errors: it consumes exactly one byte and yields `true` iff that byte
equals 1, so every byte other than 1 (including bytes other than 0)
decodes to `false`; and re-encoding a decoded boolean need not reproduce
the original byte (byte 2 decodes to `false`, which re-encodes as byte 0). -/
theorem c10_bool_decode_total :
    (∀ (b : Nat) (rest : List Nat), rBool (b :: rest) = some ((b == 1 : Bool), rest)) ∧
    (∀ (b : Nat) (rest : List Nat), b ≠ 1 → rBool (b :: rest) = some (false, rest)) ∧
    (rBool [2] = some (false, []) ∧ wBool false = [0] ∧ [(0 : Nat)] ≠ [2]) := by
  refine ⟨fun b rest => rfl, fun b rest hb => ?_, rfl, rfl, by decide⟩
  have h : (b == 1) = false := by
    simp [hb]
  calc rBool (b :: rest) = some ((b == 1 : Bool), rest) := rfl
    _ = some (false, rest) := by rw [h]

/-- C10 witness: byte 2 decodes to `false` via the ≠-1 clause. -/
theorem c10_bool_decode_total_witness : rBool [2] = some (false, []) :=
  c10_bool_decode_total.2.1 2 [] (by decide)

/-! ## Claim C6: ULEB128 decoding -/

/-- C6 counterexample: the codec reader's ULEB decoder accepts an encoding
whose continuation bytes push the shift to 35 bits, returning `2^35`
instead of any overflow error. -/
theorem c6_uleb_counterexample :
    rUleb [128, 128, 128, 128, 128, 1] = some (34359738368, []) := by
  decide

/-- C6 amended: `BinaryReader::uleb` is total — on every input it either
returns a decoded value or fails (only at end of input) — but it never
rejects large shifts; the >32-bit rejection exists only in the stream
receive loop's frame-length decoder, which errors whenever five
continuation bytes appear. -/
theorem c6_uleb_amended :
    (∀ l : List Nat, (∃ v rest, rUleb l = some (v, rest)) ∨ rUleb l = none) ∧
    (∀ b1 b2 b3 b4 b5 : Nat, ∀ rest : List Nat,
      b1 &&& 128 ≠ 0 → b2 &&& 128 ≠ 0 → b3 &&& 128 ≠ 0 → b4 &&& 128 ≠ 0 →
      b5 &&& 128 ≠ 0 → recvLen (b1 :: b2 :: b3 :: b4 :: b5 :: rest) = none) := by
  constructor
  · have haux : ∀ (l : List Nat) (shift acc : Nat),
        (∃ v rest, rUlebAux l shift acc = some (v, rest)) ∨ rUlebAux l shift acc = none := by
      intro l
      induction l with
      | nil => intro shift acc; exact Or.inr rfl
      | cons b t ih =>
        intro shift acc
        rw [rUlebAux]
        by_cases hb : b &&& 128 = 0
        · rw [if_pos hb]
          exact Or.inl ⟨_, _, rfl⟩
        · rw [if_neg hb]
          exact ih _ _
    intro l
    exact haux l 0 0
  · intro b1 b2 b3 b4 b5 rest h1 h2 h3 h4 h5
    show recvLenAux (b1 :: b2 :: b3 :: b4 :: b5 :: rest) 0 0 = none
    rw [recvLenAux, if_neg h1, if_neg (by omega : ¬ 0 + 7 > 32)]
    rw [recvLenAux, if_neg h2, if_neg (by omega : ¬ 0 + 7 + 7 > 32)]
    rw [recvLenAux, if_neg h3, if_neg (by omega : ¬ 0 + 7 + 7 + 7 > 32)]
    rw [recvLenAux, if_neg h4, if_neg (by omega : ¬ 0 + 7 + 7 + 7 + 7 > 32)]
    rw [recvLenAux, if_neg h5, if_pos (by omega : 0 + 7 + 7 + 7 + 7 + 7 > 32)]

/-- C6 witness: totality on the counterexample bytes, and the frame-length
decoder rejecting five continuation bytes. -/
theorem c6_uleb_amended_witness :
    ((∃ v rest, rUleb [128, 1] = some (v, rest)) ∨ rUleb [128, 1] = none) ∧
    recvLen [128, 128, 128, 128, 128, 1] = none :=
  ⟨c6_uleb_amended.1 [128, 1],
   c6_uleb_amended.2 128 128 128 128 128 [1]
     (by decide) (by decide) (by decide) (by decide) (by decide)⟩

/-! ## Claim C7: Varchar decode bound -/

/-- C7 counterexample: decoding a `Varchar<2>` from a length field of 2 and
two invalid UTF-8 bytes succeeds, but lossy replacement turns the two bytes
into two U+FFFD characters whose UTF-8 byte length is 6 > 2. -/
theorem c7_varchar_counterexample :
    rVarchar 2 [2, 255, 255] = some ([repl, repl], []) ∧
    byteLen [repl, repl] = 6 := by
  constructor
  · decide
  · decide

/-- C7 amended: when a `Varchar<N>` wire decode succeeds, the validated
bound applies to the count of raw string bytes consumed, which is ≤ N; if
those bytes are valid UTF-8 (the byte image of some string) the result is
exactly that string and its byte length is the raw count, hence ≤ N.  With
invalid UTF-8, replacement characters can push the decoded string's byte
length beyond N. -/
theorem c7_varchar_decode_amended (N : Nat) (input : List Nat) (s : RString)
    (rest : List Nat) (hdec : rVarchar N input = some (s, rest)) :
    ∃ len raw, rUleb input = some (len, raw ++ rest) ∧ raw.length = len ∧ len ≤ N ∧
      s = utf8DecodeLossy raw ∧
      ∀ t : RString, raw = utf8Encode t → s = t ∧ byteLen s ≤ N := by
  unfold rVarchar at hdec
  rw [rBind_eval] at hdec
  cases hu : rUleb input with
  | none =>
    rw [hu] at hdec
    exact absurd hdec (by simp)
  | some p =>
    obtain ⟨len, l1⟩ := p
    rw [hu] at hdec
    simp only [Option.some_bind] at hdec
    by_cases hlen : len > N
    · rw [if_pos hlen] at hdec
      exact absurd hdec (by simp)
    · rw [if_neg hlen] at hdec
      rw [rBind_eval] at hdec
      unfold rTake at hdec
      by_cases hle : len ≤ l1.length
      · rw [if_pos hle] at hdec
        simp only [Option.some_bind, rPure_eval, Option.some.injEq, Prod.mk.injEq] at hdec
        obtain ⟨hs, hrest⟩ := hdec
        refine ⟨len, l1.take len, ?_, ?_, by omega, hs.symm, ?_⟩
        · rw [← hrest, List.take_append_drop]
        · simp [List.length_take]
          omega
        · intro t ht
          constructor
          · rw [← hs, ht, utf8DecodeLossy_utf8Encode]
          · have hb : byteLen s = (utf8Encode t).length := by
              rw [← hs, ht, utf8DecodeLossy_utf8Encode]
              rfl
            have : (utf8Encode t).length = len := by
              rw [← ht]
              simp [List.length_take]
              omega
            omega
      · rw [if_neg hle] at hdec
        exact absurd hdec (by simp)

/-- C7 witness: the amended statement applied to a valid one-byte decode. -/
theorem c7_varchar_decode_amended_witness :
    ∃ len raw, rUleb [1, 65] = some (len, raw ++ []) ∧ raw.length = len ∧ len ≤ 32 ∧
      [(⟨65, Or.inl (by norm_num)⟩ : UChar)] = utf8DecodeLossy raw ∧
      ∀ t : RString, raw = utf8Encode t →
        [(⟨65, Or.inl (by norm_num)⟩ : UChar)] = t ∧
          byteLen [(⟨65, Or.inl (by norm_num)⟩ : UChar)] ≤ 32 :=
  c7_varchar_decode_amended 32 [1, 65] [⟨65, Or.inl (by norm_num)⟩] [] (by decide)

/-! ## Claim C2: codec round trip -/

/-- C2 counterexample.  Two wire values fail `decode(encode(v)) = v`:
(i) a `Varchar<2>` holding two U+FFFD characters — a value the code itself
constructs by decoding `[2, 255, 255]` — encodes with byte length 6 and is
rejected on re-decode; (ii) a timestamp half a millisecond past the epoch
encodes as 0 ms and decodes to the truncated instant, not itself. -/
theorem c2_roundtrip_counterexample :
    (rVarchar 2 [2, 255, 255] = some ([repl, repl], []) ∧
      rVarchar 2 (wVarchar [repl, repl] ++ []) = none) ∧
    (rTimestamp (wTimestamp ⟨0, 500000⟩ ++ []) = some (⟨0, 0⟩, []) ∧
      (⟨0, 0⟩ : Timestamp) ≠ ⟨0, 500000⟩) := by
  exact ⟨⟨by decide, by decide⟩, ⟨by decide, by decide⟩⟩

/-- C2 amended: decoding inverts encoding for every Rust-representable
value of every declared wire type — primitives and bit patterns, UUIDs,
CompactPos, judgements and telemetry, strings, `Varchar`s within their
declared bound, validated `RoomId`s, room states, `Message`s and both
command sets (pairs, sequences and maps are covered inside these) — and
for timestamps on whole-millisecond instants.  The two exceptions forced by
the counterexample are reflected in the hypotheses: `Varchar` values
beyond their bound (constructible only by decoding invalid UTF-8) fail to
re-decode, and sub-millisecond timestamps decode to a truncated instant. -/
theorem c2_roundtrip_amended :
    (∀ (b : Bool) (rest : List Nat), rBool (wBool b ++ rest) = some (b, rest)) ∧
    (∀ (v : B8) (rest : List Nat), rB8 (wB8 v ++ rest) = some (v, rest)) ∧
    (∀ (v : B16) (rest : List Nat), rB16 (wB16 v ++ rest) = some (v, rest)) ∧
    (∀ (v : B32) (rest : List Nat), rB32 (wB32 v ++ rest) = some (v, rest)) ∧
    (∀ (v : B64) (rest : List Nat), rB64 (wB64 v ++ rest) = some (v, rest)) ∧
    (∀ (u : Uuid) (rest : List Nat), rUuid (wUuid u ++ rest) = some (u, rest)) ∧
    (∀ (p : CompactPos) (rest : List Nat),
      rCompactPos (wCompactPos p ++ rest) = some (p, rest)) ∧
    (∀ (j : Judgement) (rest : List Nat),
      rJudgement (wJudgement j ++ rest) = some (j, rest)) ∧
    (∀ (e : JudgeEvent) (rest : List Nat),
      rJudgeEvent (wJudgeEvent e ++ rest) = some (e, rest)) ∧
    (∀ (s : RString) (rest : List Nat), WFString s →
      rString (wString s ++ rest) = some (s, rest)) ∧
    (∀ (N : Nat) (s : RString) (rest : List Nat), WFVarchar N s → WFString s →
      rVarchar N (wVarchar s ++ rest) = some (s, rest)) ∧
    (∀ (s : RString) (rest : List Nat), WFRoomId s →
      rRoomId (wRoomId s ++ rest) = some (s, rest)) ∧
    (∀ (rs : RoomState) (rest : List Nat),
      rRoomState (wRoomState rs ++ rest) = some (rs, rest)) ∧
    (∀ (m : Message) (rest : List Nat), WFMessage m →
      rMessage (wMessage m ++ rest) = some (m, rest)) ∧
    (∀ (c : ClientCommand) (rest : List Nat), WFClientCommand c →
      rClientCommand (wClientCommand c ++ rest) = some (c, rest)) ∧
    (∀ (c : ServerCommand) (rest : List Nat), WFServerCommand c →
      rServerCommand (wServerCommand c ++ rest) = some (c, rest)) ∧
    (∀ (t : Timestamp) (rest : List Nat), t.subnanos = 0 → tsInRange t.millis →
      rTimestamp (wTimestamp t ++ rest) = some (t, rest)) := by
  refine ⟨rBool_rt, rB8_rt, rB16_rt, rB32_rt, rB64_rt, rUuid_rt, rCompactPos_rt,
    rJudgement_rt, rJudgeEvent_rt, fun s rest h => rString_rt h rest,
    fun N s rest h1 h2 => rVarchar_rt h1 h2 rest, fun s rest h => rRoomId_rt h rest,
    rRoomState_rt, fun m rest h => rMessage_rt h rest,
    fun c rest h => rClientCommand_rt h rest, fun c rest h => rServerCommand_rt h rest,
    fun t rest h1 h2 => rTimestamp_rt h1 h2 rest⟩

/-- C2 witness: the amended round trip at a concrete command and a concrete
whole-millisecond timestamp. -/
theorem c2_roundtrip_amended_witness :
    rClientCommand (wClientCommand ClientCommand.ping ++ []) =
      some (ClientCommand.ping, []) ∧
    rTimestamp (wTimestamp ⟨1000, 0⟩ ++ []) = some (⟨1000, 0⟩, []) :=
  ⟨c2_roundtrip_amended.2.2.2.2.2.2.2.2.2.2.2.2.2.2.1 ClientCommand.ping []
    (by trivial),
   c2_roundtrip_amended.2.2.2.2.2.2.2.2.2.2.2.2.2.2.2.2 ⟨1000, 0⟩ [] rfl (by decide)⟩

/-! ## Claim C9: Ping handling -/

/-- C9 counterexample: once a session is marked panicked (after an
authentication failure or a failed send), a received `Ping` is silently
dropped — no `Pong` is sent — both before and after authentication. -/
theorem c9_ping_counterexample :
    handle ⟨true, true⟩ (AuthOutcome.fail []) ClientCommand.ping
        = ⟨⟨true, true⟩, [], false, false⟩ ∧
    handle ⟨false, true⟩ (AuthOutcome.fail []) ClientCommand.ping
        = ⟨⟨false, true⟩, [], false, false⟩ := by
  exact ⟨rfl, rfl⟩

/-- C9 amended: as long as the session has not been marked panicked, a
`Ping` — before or after authentication — is answered with exactly one
`Pong`, leaves the authentication phase and panic flag unchanged, reports
no lost connection, and dispatches nothing.  A panicked session ignores
every command, `Ping` included. -/
theorem c9_ping_amended (st : HandlerState) (auth : AuthOutcome) :
    (st.panicked = false →
      handle st auth ClientCommand.ping = ⟨st, [ServerCommand.pong], false, false⟩) ∧
    (st.panicked = true →
      handle st auth ClientCommand.ping = ⟨st, [], false, false⟩) := by
  obtain ⟨w, p⟩ := st
  constructor
  · intro h
    simp only [] at h
    subst h
    rfl
  · intro h
    simp only [] at h
    subst h
    rfl

/-- C9 witness: a fresh unauthenticated, non-panicked session answers
`Ping` with `Pong`. -/
theorem c9_ping_amended_witness :
    handle ⟨true, false⟩ (AuthOutcome.fail []) ClientCommand.ping
      = ⟨⟨true, false⟩, [ServerCommand.pong], false, false⟩ :=
  (c9_ping_amended ⟨true, false⟩ (AuthOutcome.fail [])).1 rfl

/-! ## Claim C8: dangle-timer expiry -/

/-- C8 counterexample: at grace-timer expiry with the marker still uniquely
held, a user who is in no room is NOT removed from the user registry —
the removal happens only inside the `if let Some(room)` branch. -/
theorem c8_dangle_counterexample :
    dangleTimerExpire true ⟨1, [], false⟩ none {1} 0 = ({1}, none, []) ∧
    (1 : B32) ∈ ({1} : Finset B32) := by
  exact ⟨rfl, by decide⟩

/-- C8 amended: at timer expiry, (i) if a new session reattached (marker no
longer uniquely held) nothing happens; (ii) if the marker is still held but
the user is in no room, nothing happens either — the user stays registered;
(iii) if the marker is still held and the user is in a room, the user is
removed from the registry and `on_user_leave` is applied, dropping the room
when it indicates so. -/
theorem c8_dangle_amended (u : SUser) (room : Option SRoom) (reg : Finset B32)
    (choice : Nat) :
    (dangleTimerExpire false u room reg choice = (reg, room, [])) ∧
    (dangleTimerExpire true u none reg choice = (reg, none, [])) ∧
    (∀ r, room = some r →
      dangleTimerExpire true u room reg choice =
        (reg.erase u.id,
         if (onUserLeave r u choice).1 then none else some (onUserLeave r u choice).2.1,
         (onUserLeave r u choice).2.2)) := by
  refine ⟨rfl, rfl, fun r hr => ?_⟩
  subst hr
  rfl

/-- C8 witness: expiry with the marker held and an empty room removes the
user from the registry. -/
theorem c8_dangle_amended_witness :
    dangleTimerExpire true ⟨1, [], false⟩
        (some ⟨[], [], none, IState.selectChart, none, false, false, false⟩) {1} 0 =
      (({1} : Finset B32).erase 1,
       if (onUserLeave ⟨[], [], none, IState.selectChart, none, false, false, false⟩
            ⟨1, [], false⟩ 0).1 then none
       else some (onUserLeave ⟨[], [], none, IState.selectChart, none, false, false, false⟩
            ⟨1, [], false⟩ 0).2.1,
       (onUserLeave ⟨[], [], none, IState.selectChart, none, false, false, false⟩
            ⟨1, [], false⟩ 0).2.2) :=
  (c8_dangle_amended ⟨1, [], false⟩
    (some ⟨[], [], none, IState.selectChart, none, false, false, false⟩) {1} 0).2.2
    ⟨[], [], none, IState.selectChart, none, false, false, false⟩ rfl

/-! ## Claim C1: room-state preconditions -/

/-- C1 counterexample: `Ready` issued while the room is `Playing` returns
`Ok(())` — not an invalid-state error — and `Played` issued while the room
is in `SelectChart` (with a valid record) also returns `Ok(())`, after
having already broadcast a `Played` message to the whole room. -/
theorem c1_counterexample :
    processReady ⟨1, [], false⟩
        ⟨[⟨1, [], false⟩], [], some 1, IState.playing ∅ ∅, none, false, false, false⟩ =
      (PResp.ready (Except.ok ()),
       ⟨[⟨1, [], false⟩], [], some 1, IState.playing ∅ ∅, none, false, false, false⟩, []) ∧
    processPlayed ⟨1, [], false⟩ ⟨0, 1, 7, 0, 0, 0, 0, 0, 3, true, 0, 0⟩
        ⟨[⟨1, [], false⟩], [], some 1, IState.selectChart, none, false, false, false⟩ =
      (PResp.played (Except.ok ()),
       ⟨[⟨1, [], false⟩], [], some 1, IState.selectChart, none, false, false, false⟩,
       [Effect.broadcast (ServerCommand.message (Message.played 1 7 3 true))]) := by
  exact ⟨rfl, by decide⟩

/-- C1 amended: only `SelectChart` and `RequestStart` enforce their state
precondition with an invalid-state error (before any mutation, broadcast,
or host check).  `Ready`, `CancelReady` and `Abort` issued in a
non-matching state return `Ok(())` with no mutation and no broadcast; and
`Played` in a non-matching state returns `Ok(())` with no mutation but
only after broadcasting the `Played` message (record fetch and validation
precede the state check). -/
theorem c1_state_precondition_amended :
    (∀ (u : SUser) (c : Chart) (r : SRoom), r.state ≠ IState.selectChart →
      processSelectChart u c r = (.selectChart (.error .invalidState), r, [])) ∧
    (∀ (u : SUser) (r : SRoom), r.state ≠ IState.selectChart →
      processRequestStart u r = (.requestStart (.error .invalidState), r, [])) ∧
    (∀ (u : SUser) (r : SRoom), (∀ s, r.state ≠ IState.waitForReady s) →
      processReady u r = (.ready (.ok ()), r, [])) ∧
    (∀ (u : SUser) (r : SRoom), (∀ s, r.state ≠ IState.waitForReady s) →
      processCancelReady u r = (.cancelReady (.ok ()), r, [])) ∧
    (∀ (u : SUser) (r : SRoom), (∀ res ab, r.state ≠ IState.playing res ab) →
      processAbort u r = (.abort (.ok ()), r, [])) ∧
    (∀ (u : SUser) (rec : Record) (r : SRoom), rec.player = u.id →
      (∀ res ab, r.state ≠ IState.playing res ab) →
      processPlayed u rec r = (.played (.ok ()), r,
        [Effect.broadcast (.message (.played u.id rec.score rec.accuracy rec.fullCombo))])) := by
  refine ⟨fun u c r h => ?_, fun u r h => ?_, fun u r h => ?_, fun u r h => ?_,
    fun u r h => ?_, fun u rec r hrec h => ?_⟩
  · rcases hst : r.state with _ | s | ⟨res, ab⟩
    · exact absurd hst h
    · unfold processSelectChart
      rw [hst]
    · unfold processSelectChart
      rw [hst]
  · rcases hst : r.state with _ | s | ⟨res, ab⟩
    · exact absurd hst h
    · unfold processRequestStart
      rw [hst]
    · unfold processRequestStart
      rw [hst]
  · rcases hst : r.state with _ | s | ⟨res, ab⟩
    · unfold processReady
      rw [hst]
    · exact absurd hst (h s)
    · unfold processReady
      rw [hst]
  · rcases hst : r.state with _ | s | ⟨res, ab⟩
    · unfold processCancelReady
      rw [hst]
    · exact absurd hst (h s)
    · unfold processCancelReady
      rw [hst]
  · rcases hst : r.state with _ | s | ⟨res, ab⟩
    · unfold processAbort
      rw [hst]
    · unfold processAbort
      rw [hst]
    · exact absurd hst (h res ab)
  · rcases hst : r.state with _ | s | ⟨res, ab⟩
    · unfold processPlayed
      rw [hst, if_neg (not_not_intro hrec)]
    · unfold processPlayed
      rw [hst, if_neg (not_not_intro hrec)]
    · exact absurd hst (h res ab)

/-- C1 witness: the amended behaviour at concrete rooms. -/
theorem c1_state_precondition_amended_witness :
    processSelectChart ⟨1, [], false⟩ ⟨5, []⟩
        ⟨[⟨1, [], false⟩], [], some 1, IState.playing ∅ ∅, none, false, false, false⟩ =
      (.selectChart (.error .invalidState),
       ⟨[⟨1, [], false⟩], [], some 1, IState.playing ∅ ∅, none, false, false, false⟩, []) ∧
    processAbort ⟨1, [], false⟩
        ⟨[⟨1, [], false⟩], [], some 1, IState.selectChart, none, false, false, false⟩ =
      (.abort (.ok ()),
       ⟨[⟨1, [], false⟩], [], some 1, IState.selectChart, none, false, false, false⟩, []) :=
  ⟨c1_state_precondition_amended.1 ⟨1, [], false⟩ ⟨5, []⟩
      ⟨[⟨1, [], false⟩], [], some 1, IState.playing ∅ ∅, none, false, false, false⟩
      (fun h => IState.noConfusion h),
   c1_state_precondition_amended.2.2.2.2.1 ⟨1, [], false⟩
      ⟨[⟨1, [], false⟩], [], some 1, IState.selectChart, none, false, false, false⟩
      (fun _ _ h => IState.noConfusion h)⟩

/-! ## Claim C3: the Playing → SelectChart transition -/

theorem checkAllReady_playing_stuck {r : SRoom} {res ab : Finset B32}
    (h : r.state = IState.playing res ab)
    (hno : ¬ ∀ w ∈ r.users, w.id ∈ res ∨ w.id ∈ ab) : checkAllReady r = (r, []) := by
  have hb : ¬ ((r.users.all fun w => decide (w.id ∈ res ∨ w.id ∈ ab)) = true) := by
    simp only [List.all_eq_true, decide_eq_true_eq]
    exact hno
  unfold checkAllReady
  rw [h]
  dsimp only
  rw [if_neg hb]

theorem checkAllReady_playing_done {r : SRoom} {res ab : Finset B32}
    (h : r.state = IState.playing res ab)
    (hall : ∀ w ∈ r.users, w.id ∈ res ∨ w.id ∈ ab) :
    (checkAllReady r).1.state = IState.selectChart ∧
    Effect.broadcast (ServerCommand.message Message.gameEnd) ∈ (checkAllReady r).2 ∧
    (checkAllReady r).1.users = r.users ∧
    (checkAllReady r).1.monitors = r.monitors ∧
    ((checkAllReady r).1.host = r.host ∨
      ∃ w ∈ r.users, (checkAllReady r).1.host = some w.id) := by
  have hb : (r.users.all fun w => decide (w.id ∈ res ∨ w.id ∈ ab)) = true := by
    simp only [List.all_eq_true, decide_eq_true_eq]
    exact hall
  unfold checkAllReady
  rw [h]
  dsimp only
  rw [if_pos hb]
  by_cases hc : r.cycle
  · rw [if_pos hc]
    split
    · rename_i nh heq
      refine ⟨rfl, by simp, rfl, rfl, Or.inr ⟨nh, List.getElem?_mem heq, rfl⟩⟩
    · exact ⟨rfl, by simp, rfl, rfl, Or.inl rfl⟩
  · rw [if_neg hc]
    exact ⟨rfl, by simp, rfl, rfl, Or.inl rfl⟩

/-- C3: a room in `Playing` advances to `SelectChart` exactly when every
live non-monitor participant is in `results ∪ aborted`.  The re-check
itself transitions (emitting `GameEnd`) iff the condition holds; a
successful `Played` inserts the player into `results` and transitions iff
the condition then holds; a successful `Abort` likewise via `aborted`; a
member leave re-checks over the remaining participants; and no re-check
transitions while some participant is in neither set. -/
theorem c3_playing_completion :
    (∀ (r : SRoom) (res ab : Finset B32), r.state = IState.playing res ab →
      (((checkAllReady r).1.state = IState.selectChart ∧
        Effect.broadcast (ServerCommand.message Message.gameEnd) ∈ (checkAllReady r).2) ↔
        ∀ w ∈ r.users, w.id ∈ res ∨ w.id ∈ ab)) ∧
    (∀ (u : SUser) (rec : Record) (r : SRoom) (res ab : Finset B32),
      r.state = IState.playing res ab → rec.player = u.id → u.id ∉ res → u.id ∉ ab →
      ((processPlayed u rec r).2.1.state = IState.selectChart ↔
        ∀ w ∈ r.users, w.id ∈ insert u.id res ∨ w.id ∈ ab)) ∧
    (∀ (u : SUser) (r : SRoom) (res ab : Finset B32),
      r.state = IState.playing res ab → u.id ∉ res → u.id ∉ ab →
      ((processAbort u r).2.1.state = IState.selectChart ↔
        ∀ w ∈ r.users, w.id ∈ res ∨ w.id ∈ insert u.id ab)) ∧
    (∀ (u : SUser) (choice : Nat) (r : SRoom) (res ab : Finset B32),
      r.state = IState.playing res ab → (onUserLeave r u choice).1 = false →
      ((onUserLeave r u choice).2.1.state = IState.selectChart ↔
        ∀ w ∈ (removeLeaver r u).users, w.id ∈ res ∨ w.id ∈ ab)) := by
  have core : ∀ (r : SRoom) (res ab : Finset B32), r.state = IState.playing res ab →
      ((checkAllReady r).1.state = IState.selectChart ↔
        ∀ w ∈ r.users, w.id ∈ res ∨ w.id ∈ ab) := by
    intro r res ab h
    constructor
    · intro hsel
      by_contra hno
      rw [checkAllReady_playing_stuck h hno] at hsel
      rw [h] at hsel
      exact IState.noConfusion hsel
    · intro hall
      exact (checkAllReady_playing_done h hall).1
  refine ⟨fun r res ab h => ?_, fun u rec r res ab h hrec hres hab => ?_,
    fun u r res ab h hres hab => ?_, fun u choice r res ab h hkeep => ?_⟩
  · constructor
    · intro hsel
      exact (core r res ab h).mp hsel.1
    · intro hall
      obtain ⟨h1, h2, _⟩ := checkAllReady_playing_done h hall
      exact ⟨h1, h2⟩
  · -- Played: the broadcast precedes the lock, then the insert and re-check
    unfold processPlayed
    rw [if_neg (not_not_intro hrec), h]
    dsimp only
    rw [if_neg hab, if_neg hres]
    dsimp only
    have h1 : ({ r with state := IState.playing (insert u.id res) ab } : SRoom).state
        = IState.playing (insert u.id res) ab := rfl
    exact core _ _ _ h1
  · unfold processAbort
    rw [h]
    dsimp only
    rw [if_neg hres, if_neg hab]
    dsimp only
    exact core _ _ _ rfl
  · unfold onUserLeave at hkeep ⊢
    dsimp only at hkeep ⊢
    by_cases hh : (removeLeaver r u).host = some u.id
    · rw [if_pos hh] at hkeep ⊢
      rcases hrem : (removeLeaver r u).users with _ | ⟨w, ws⟩
      · simp [hrem] at hkeep
      · dsimp only
        refine Iff.trans (core _ res ab ?_) Iff.rfl
        show (removeLeaver r u).state = IState.playing res ab
        have hstate : (removeLeaver r u).state = r.state := by
          unfold removeLeaver
          by_cases hm : u.monitor <;> simp [hm]
        rw [hstate, h]
    · rw [if_neg hh] at hkeep ⊢
      have hst : (removeLeaver r u).state = IState.playing res ab := by
        have : (removeLeaver r u).state = r.state := by
          unfold removeLeaver
          by_cases hm : u.monitor <;> simp [hm]
        rw [this, h]
      exact core _ _ _ hst

/-- C3 witness: a one-player room in `Playing` with the player already in
`results` transitions at the re-check. -/
theorem c3_playing_completion_witness :
    (checkAllReady ⟨[⟨1, [], false⟩], [], some 1, IState.playing {1} ∅, none,
        false, false, false⟩).1.state = IState.selectChart ∧
    Effect.broadcast (ServerCommand.message Message.gameEnd) ∈
      (checkAllReady ⟨[⟨1, [], false⟩], [], some 1, IState.playing {1} ∅, none,
        false, false, false⟩).2 :=
  (c3_playing_completion.1 _ {1} ∅ rfl).mpr (by decide)

/-! ## Claim C4: host migration on leave -/

theorem checkAllReady_users (r : SRoom) :
    (checkAllReady r).1.users = r.users ∧ (checkAllReady r).1.monitors = r.monitors := by
  unfold checkAllReady
  rcases hst : r.state with _ | s | ⟨res, ab⟩ <;> dsimp only
  · exact ⟨rfl, rfl⟩
  · split
    · exact ⟨rfl, rfl⟩
    · exact ⟨rfl, rfl⟩
  · split
    · split
      · split
        · exact ⟨rfl, rfl⟩
        · exact ⟨rfl, rfl⟩
      · exact ⟨rfl, rfl⟩
    · exact ⟨rfl, rfl⟩

theorem checkAllReady_host (r : SRoom) :
    (checkAllReady r).1.host = r.host ∨
      ∃ w ∈ r.users, (checkAllReady r).1.host = some w.id := by
  unfold checkAllReady
  rcases hst : r.state with _ | s | ⟨res, ab⟩ <;> dsimp only
  · exact Or.inl rfl
  · split
    · exact Or.inl rfl
    · exact Or.inl rfl
  · split
    · split
      · split
        · rename_i nh heq
          exact Or.inr ⟨nh, List.getElem?_mem heq, rfl⟩
        · exact Or.inl rfl
      · exact Or.inl rfl
    · exact Or.inl rfl

/-- C4: when the leaver is the host, `on_user_leave` returns `true` when no
participant remains after the removal; otherwise it returns `false`,
chooses the participant indexed by the RNG oracle (every remaining
participant is chosen by some oracle value — the source draws it uniformly
with `choose(&mut thread_rng())`), installs them as host, broadcasts
`NewHost` and sends `ChangeHost(true)` privately to them — and the
resulting room's host, when present, is a current participant. -/
theorem c4_host_leave (r : SRoom) (u : SUser) (choice : Nat)
    (hhost : r.host = some u.id) :
    ((removeLeaver r u).users = [] →
      onUserLeave r u choice = (true, removeLeaver r u,
        [Effect.broadcast (ServerCommand.message (Message.leaveRoom u.id u.name))])) ∧
    (∀ w ws, (removeLeaver r u).users = w :: ws →
      (onUserLeave r u choice).1 = false ∧
      (∃ chosen ∈ (removeLeaver r u).users,
        Effect.broadcast (ServerCommand.message (Message.newHost chosen.id))
            ∈ (onUserLeave r u choice).2.2 ∧
        Effect.toUser chosen.id (ServerCommand.changeHost true)
            ∈ (onUserLeave r u choice).2.2) ∧
      (∀ h', (onUserLeave r u choice).2.1.host = some h' →
        h' ∈ participantIds (onUserLeave r u choice).2.1) ∧
      (∀ w' ∈ (removeLeaver r u).users, ∃ ch : Nat,
        (w :: ws).get ⟨ch % (w :: ws).length, Nat.mod_lt _ (Nat.succ_pos ws.length)⟩
          = w')) := by
  have hrh : (removeLeaver r u).host = r.host := by
    unfold removeLeaver
    by_cases hm : u.monitor <;> simp [hm]
  constructor
  · intro hempty
    unfold onUserLeave
    dsimp only
    rw [if_pos (by rw [hrh, hhost]), hempty]
  · intro w ws hcons
    unfold onUserLeave
    dsimp only
    rw [if_pos (by rw [hrh, hhost]), hcons]
    dsimp only
    refine ⟨rfl, ?_, ?_, ?_⟩
    · refine ⟨(w :: ws).get ⟨choice % (w :: ws).length, Nat.mod_lt _ (Nat.succ_pos ws.length)⟩,
        ?_, ?_, ?_⟩
      · exact List.get_mem _ _ _
      · simp
      · simp
    · intro h' hh'
      set R2 : SRoom :=
        { removeLeaver r u with
          users := w :: ws,
          host := some ((w :: ws).get
            ⟨choice % (w :: ws).length, Nat.mod_lt _ (Nat.succ_pos ws.length)⟩).id } with hR2
      have hR2u : R2.users = w :: ws := rfl
      have hR2h : R2.host = some ((w :: ws).get
          ⟨choice % (w :: ws).length, Nat.mod_lt _ (Nat.succ_pos ws.length)⟩).id := rfl
      unfold participantIds
      rw [(checkAllReady_users R2).1, hR2u]
      rcases checkAllReady_host R2 with he | ⟨x, hx, he⟩
      · have h1 : some ((w :: ws).get
            ⟨choice % (w :: ws).length, Nat.mod_lt _ (Nat.succ_pos ws.length)⟩).id
            = some h' := by
          rw [← hR2h, ← he]
          exact hh'
        have h2 : h' = ((w :: ws).get
            ⟨choice % (w :: ws).length, Nat.mod_lt _ (Nat.succ_pos ws.length)⟩).id :=
          (Option.some.inj h1).symm
        subst h2
        exact List.mem_map_of_mem SUser.id (List.get_mem _ _ _)
      · have h2 : h' = x.id := Option.some.inj (he.symm.trans hh') |>.symm ▸ rfl
        subst h2
        rw [hR2u] at hx
        exact List.mem_map_of_mem SUser.id hx
    · intro w' hw'
      obtain ⟨⟨i, hi⟩, hget⟩ := List.mem_iff_get.mp hw'
      refine ⟨i, ?_⟩
      have hfin : (⟨i % (w :: ws).length, Nat.mod_lt _ (Nat.succ_pos ws.length)⟩
          : Fin (w :: ws).length) = ⟨i, hi⟩ := Fin.ext (Nat.mod_eq_of_lt hi)
      rw [hfin]
      exact hget

/-- C4 witness: a two-player room whose host leaves promotes the remaining
player. -/
theorem c4_host_leave_witness :
    (onUserLeave ⟨[⟨1, [], false⟩, ⟨2, [], false⟩], [], some 1, IState.selectChart,
        none, false, false, false⟩ ⟨1, [], false⟩ 0).1 = false :=
  ((c4_host_leave ⟨[⟨1, [], false⟩, ⟨2, [], false⟩], [], some 1, IState.selectChart,
      none, false, false, false⟩ ⟨1, [], false⟩ 0 rfl).2 ⟨2, [], false⟩ []
    (by decide)).1

/-! ## Claim C5: the readiness set and room membership -/

theorem startedWF_checkAllReady (r : SRoom) (h : StartedWF r) :
    StartedWF (checkAllReady r).1 := by
  unfold checkAllReady
  rcases hst : r.state with _ | s | ⟨res, ab⟩ <;> dsimp only
  · exact h
  · split
    · exact fun s2 hs2 => IState.noConfusion hs2
    · exact h
  · split
    · split
      · split
        · exact fun s2 hs2 => IState.noConfusion hs2
        · exact fun s2 hs2 => IState.noConfusion hs2
      · exact fun s2 hs2 => IState.noConfusion hs2
    · exact h

/-- C5: refuted as stated.  In the reachable room `c5Room` the monitor
(id 2) issues `Ready`: the command succeeds and 2 is inserted into
`started`, but 2 is not among the non-monitor participant ids — so
`started ⊆ participant_ids` is not preserved by `Ready` (the source inserts
the issuer's id whether or not they are a monitor, and `check_all_ready`
indeed waits for the monitors too). -/
theorem c5_counterexample :
    RoomReach c5Room ∧
    (processReady ⟨2, [], true⟩ c5Room).1 = PResp.ready (Except.ok ()) ∧
    stateStartedHas (processReady ⟨2, [], true⟩ c5Room).2.1.state 2 = true ∧
    ((participantIds (processReady ⟨2, [], true⟩ c5Room).2.1).all
      fun x => x != 2) = true := by
  refine ⟨?_, by decide, by decide, by decide⟩
  have h0 := RoomReach.create ⟨1, [], false⟩
  have h1 := RoomReach.join ⟨3, [], false⟩ false (newRoom ⟨1, [], false⟩)
    { users := [⟨1, [], false⟩, ⟨3, [], false⟩], monitors := [], host := some 1,
      state := .selectChart, chart := none, live := false, locked := false,
      cycle := false } h0 (by decide) (by decide)
  have h2 := RoomReach.join ⟨2, [], true⟩ true _
    { users := [⟨1, [], false⟩, ⟨3, [], false⟩], monitors := [⟨2, [], true⟩],
      host := some 1, state := .selectChart, chart := none, live := true,
      locked := false, cycle := false } h1 (by decide) (by decide)
  have h3 := RoomReach.selectChart ⟨1, [], false⟩ ⟨7, []⟩ _ h2 (Or.inl (by decide))
  have h4 := RoomReach.requestStart ⟨1, [], false⟩ _ h3 (Or.inl (by decide))
  have he : (processRequestStart ⟨1, [], false⟩
      (processSelectChart ⟨1, [], false⟩ ⟨7, []⟩
        { users := [⟨1, [], false⟩, ⟨3, [], false⟩], monitors := [⟨2, [], true⟩],
          host := some 1, state := .selectChart, chart := none, live := true,
          locked := false, cycle := false }).2.1).2.1 = c5Room := by decide
  exact he ▸ h4

/-- C5 (amended): monitors ready up too, so the invariant the code keeps is
not `started ⊆ participant_ids` but `StartedWF`: every id in `started`
belongs to a current participant **or monitor**.  `Ready` and
`CancelReady`, issued by any current member, preserve it. -/
theorem c5_ready_cancelReady_preserve_startedWF (u : SUser) (r : SRoom)
    (hm : u ∈ r.users ∨ u ∈ r.monitors) (hwf : StartedWF r) :
    StartedWF (processReady u r).2.1 ∧ StartedWF (processCancelReady u r).2.1 := by
  constructor
  · unfold processReady
    rcases hst : r.state with _ | s | ⟨res, ab⟩ <;> dsimp only
    · exact hwf
    · split
      · exact hwf
      · apply startedWF_checkAllReady
        intro s2 hs2 x hx
        injection hs2 with h
        subst h
        rcases Finset.mem_insert.mp hx with hxu | hxs
        · subst hxu
          rcases hm with h1 | h1
          · exact Or.inl ⟨u, h1, rfl⟩
          · exact Or.inr ⟨u, h1, rfl⟩
        · exact hwf s hst x hxs
    · exact hwf
  · unfold processCancelReady
    rcases hst : r.state with _ | s | ⟨res, ab⟩ <;> dsimp only
    · exact hwf
    · split
      · exact hwf
      · split
        · exact fun s2 hs2 => IState.noConfusion hs2
        · intro s2 hs2 x hx
          injection hs2 with h
          subst h
          exact hwf s hst x (Finset.mem_of_mem_erase hx)
    · exact hwf

/-- C5 witness: the preservation theorem applied in a fresh one-member
room. -/
theorem c5_ready_cancelReady_preserve_startedWF_witness :
    StartedWF (processReady ⟨1, [], false⟩ (newRoom ⟨1, [], false⟩)).2.1 ∧
    StartedWF (processCancelReady ⟨1, [], false⟩ (newRoom ⟨1, [], false⟩)).2.1 :=
  c5_ready_cancelReady_preserve_startedWF ⟨1, [], false⟩ (newRoom ⟨1, [], false⟩)
    (Or.inl (by decide)) (fun s hs => IState.noConfusion hs)

end PhiraMP
